import Mathlib

/-!
# Node controller: shallow embedding and verified properties

Embedding of `pkg/cloudprovider/controller/nodecontroller.go` (namespace
`controller`) and of `plugin/pkg/admission/exec/denyhostipc/admission.go`
(namespace `denyhostipc`).

The controller talks to three collaborators through interfaces: the cluster
state store (`kubeClient`), the kubelet health checker (`kubeletClient`) and
the cloud provider (`cloud`).  Their answers are given by a `Behaviour`; the
state they act on, together with the log of every call the controller makes,
is a `World`.  Each controller method becomes a function
`World → result × World`.

Times are integers (nanoseconds); `Time.Add` is addition and `Time.After` is `>`.
-/

namespace controller

/-! ## Data model -/

/-- Go `error` values the controller creates or inspects.  `AlreadyExists` stands
for an API status error on which `apierrors.IsAlreadyExists` answers true. -/
inductive Err where
  | ErrRegistration
  | ErrQueryIPAddress
  | ErrCloudInstance
  | AlreadyExists (msg : String)
  | Other (msg : String)
  deriving DecidableEq, Repr

/-- The text of an error, `err.Error()`. -/
def Err.Error : Err → String
  | .ErrRegistration => "unable to register all nodes."
  | .ErrQueryIPAddress => "unable to query IP address."
  | .ErrCloudInstance => "cloud provider doesn't support instances."
  | .AlreadyExists msg => msg
  | .Other msg => msg

/-- Embeds `apierrors.IsAlreadyExists`. -/
def IsAlreadyExists : Err → Bool
  | .AlreadyExists _ => true
  | _ => false

abbrev Time := Int
abbrev Duration := Int

/-- The zero `util.Time`, the value of a time field that was never set. -/
def zeroTime : Time := 0

/-- Modelled from the spec: `api.ConditionStatus`, whose declaration is outside
this file; a condition status is one of exactly three values. -/
inductive ConditionStatus where
  | ConditionFull
  | ConditionNone
  | ConditionUnknown
  deriving DecidableEq, Repr

/-- Modelled from the spec: `probe.Status`, whose declaration is outside this
file; the health-check transport answers success or failure (or a transport
error, carried separately as the `error` result). -/
inductive ProbeStatus where
  | Success
  | Failure
  deriving DecidableEq, Repr

/-- Go `api.NodeConditionKind` is a string type. -/
abbrev NodeConditionKind := String

def NodeReady : NodeConditionKind := "Ready"

structure NodeCondition where
  Kind : NodeConditionKind
  Status : ConditionStatus
  LastProbeTime : Time
  LastTransitionTime : Time
  Reason : String
  deriving DecidableEq, Repr

/-- Go `api.ResourceList`; the nil map is the empty list. -/
abbrev ResourceList := List (String × Int)

structure NodeResources where
  Capacity : ResourceList
  deriving DecidableEq, Repr

structure NodeSpec where
  Capacity : ResourceList
  deriving DecidableEq, Repr

structure NodeStatus where
  HostIP : String
  InstanceID : String
  Conditions : List NodeCondition
  deriving DecidableEq, Repr

structure Node where
  Name : String
  Spec : NodeSpec
  Status : NodeStatus
  deriving DecidableEq, Repr

structure NodeList where
  Items : List Node
  deriving DecidableEq, Repr

structure PodStatus where
  Host : String
  deriving DecidableEq, Repr

structure Pod where
  Name : String
  Status : PodStatus
  deriving DecidableEq, Repr

/-- The zero-valued `api.Node{}` with the given name. -/
def Node.named (name : String) : Node :=
  { Name := name, Spec := { Capacity := [] },
    Status := { HostIP := "", InstanceID := "", Conditions := [] } }

/-- The fields of `NodeController` that are configuration; `cloud` records whether
the `cloud` interface is non-nil. -/
structure NodeController where
  cloud : Bool
  matchRE : String
  staticResources : Option NodeResources
  nodes : List String
  registerRetryCount : Int
  podEvictionTimeout : Duration

/-! ## The collaborators -/

/-- One call the controller makes on a collaborator. -/
inductive Call where
  | NodesCreate (name : String)
  | NodesList
  | NodesDelete (name : String)
  | NodesUpdate (name : String)
  | PodsList
  | PodsDelete (name : String)
  | HealthCheck (name : String)
  | Sleep (d : Duration)
  | Instances
  | InstancesList (re : String)
  | GetNodeResources (name : String)
  | IPAddress (name : String)
  | InstanceID (name : String)
  | LookupIP (name : String)
  deriving DecidableEq, Repr

/-- State of the collaborators: the node records and pod records held by the
store, how many times the clock has been read, and every call made so far. -/
structure World where
  nodes : List Node
  pods : List Pod
  ticks : Nat
  trace : List Call
  deriving DecidableEq, Repr

/-- How the collaborators answer.  A store call fails exactly when its field
returns an error, and then leaves the store as it is; an answer may depend on the
whole state, the history of calls included.  `mapOrder` is the order in which the Go
runtime ranges over the keys of a map: some rearrangement of the keys, which the
language leaves open. -/
structure Behaviour where
  clock : Nat → Time
  health : String → World → ProbeStatus × Option Err
  createErr : Node → World → Option Err
  listNodesErr : World → Option Err
  deleteErr : String → World → Option Err
  updateErr : Node → World → Option Err
  listPodsErr : World → Option Err
  deletePodErr : String → World → Option Err
  instancesOk : World → Bool
  instanceList : String → World → Except Err (List String)
  resources : String → World → Except Err (Option NodeResources)
  ipAddress : String → World → Except Err String
  instanceID : String → World → Except Err String
  parseIP : String → Bool
  lookupIP : String → World → Except Err (List String)
  mapOrder : List String → List String
  mapOrder_perm : ∀ keys, (mapOrder keys).Perm keys

def World.log (w : World) (c : Call) : World :=
  { w with trace := w.trace ++ [c] }

def World.nodeNames (w : World) : List String := w.nodes.map Node.Name

/-- Reads `util.Now()`: the next reading of the clock. -/
def Now (b : Behaviour) (w : World) : Time × World :=
  (b.clock w.ticks, { w with ticks := w.ticks + 1 })

/-- Calls `kubeletClient.HealthCheck(name)`. -/
def HealthCheck (b : Behaviour) (name : String) (w : World) :
    (ProbeStatus × Option Err) × World :=
  (b.health name w, w.log (Call.HealthCheck name))

/-- Calls `kubeClient.Nodes().Create(node)`; a successful create stores the record
under its name. -/
def NodesCreate (b : Behaviour) (node : Node) (w : World) : Option Err × World :=
  match b.createErr node w with
  | some e => (some e, w.log (Call.NodesCreate node.Name))
  | none =>
    (none, { (w.log (Call.NodesCreate node.Name)) with
      nodes := if node.Name ∈ w.nodeNames then w.nodes else w.nodes ++ [node] })

/-- Calls `kubeClient.Nodes().List()`. -/
def NodesList (b : Behaviour) (w : World) : Except Err NodeList × World :=
  match b.listNodesErr w with
  | some e => (.error e, w.log Call.NodesList)
  | none => (.ok { Items := w.nodes }, w.log Call.NodesList)

/-- Calls `kubeClient.Nodes().Delete(name)`. -/
def NodesDelete (b : Behaviour) (name : String) (w : World) : Option Err × World :=
  match b.deleteErr name w with
  | some e => (some e, w.log (Call.NodesDelete name))
  | none =>
    (none, { (w.log (Call.NodesDelete name)) with
      nodes := w.nodes.filter (fun n => n.Name ≠ name) })

/-- Calls `kubeClient.Nodes().Update(node)`. -/
def NodesUpdate (b : Behaviour) (node : Node) (w : World) : Option Err × World :=
  match b.updateErr node w with
  | some e => (some e, w.log (Call.NodesUpdate node.Name))
  | none =>
    (none, { (w.log (Call.NodesUpdate node.Name)) with
      nodes := w.nodes.map (fun n => if n.Name = node.Name then node else n) })

/-- Calls `kubeClient.Pods(api.NamespaceAll).List(labels.Everything())`. -/
def PodsList (b : Behaviour) (w : World) : Except Err (List Pod) × World :=
  match b.listPodsErr w with
  | some e => (.error e, w.log Call.PodsList)
  | none => (.ok w.pods, w.log Call.PodsList)

/-- Calls `kubeClient.Pods(api.NamespaceAll).Delete(name)`; a successful delete
removes the record of that name. -/
def PodsDelete (b : Behaviour) (name : String) (w : World) : Option Err × World :=
  match b.deletePodErr name w with
  | some e => (some e, w.log (Call.PodsDelete name))
  | none =>
    (none, { (w.log (Call.PodsDelete name)) with
      pods := w.pods.filter (fun p => p.Name ≠ name) })

/-- Calls `time.Sleep(d)`. -/
def Sleep (d : Duration) (w : World) : World := w.log (Call.Sleep d)

/-! ## Health checking and eviction -/

/-- Embeds `getCondition`: the first condition of the given kind, if any. -/
def getCondition (node : Node) (kind : NodeConditionKind) : Option NodeCondition :=
  node.Status.Conditions.find? (fun c => c.Kind = kind)

/-- Embeds `checkNodeReady`: the raw ready condition, transition time not set. -/
def checkNodeReady (b : Behaviour) (node : Node) (w : World) : NodeCondition × World :=
  let r := HealthCheck b node.Name w
  match r.1.2 with
  | some e =>
    let t := Now b r.2
    ({ Kind := NodeReady, Status := ConditionStatus.ConditionUnknown,
       Reason := "Node health check error: " ++ e.Error,
       LastProbeTime := t.1, LastTransitionTime := zeroTime }, t.2)
  | none =>
    if r.1.1 = ProbeStatus.Failure then
      let t := Now b r.2
      ({ Kind := NodeReady, Status := ConditionStatus.ConditionNone,
         Reason := "Node health check failed: kubelet /healthz endpoint returns not ok",
         LastProbeTime := t.1, LastTransitionTime := zeroTime }, t.2)
    else
      let t := Now b r.2
      ({ Kind := NodeReady, Status := ConditionStatus.ConditionFull,
         Reason := "Node health check succeeded: kubelet /healthz endpoint returns ok",
         LastProbeTime := t.1, LastTransitionTime := zeroTime }, t.2)

/-- The loop of `deletePods` over the listed pods. -/
def deletePodsLoop (b : Behaviour) (nodeID : String) : List Pod → World → World
  | [], w => w
  | pod :: rest, w =>
    if pod.Status.Host ≠ nodeID then deletePodsLoop b nodeID rest w
    else deletePodsLoop b nodeID rest (PodsDelete b pod.Name w).2

/-- Embeds `deletePods`: deletes all pods running on the given node. -/
def deletePods (b : Behaviour) (nodeID : String) (w : World) : Option Err × World :=
  let r := PodsList b w
  match r.1 with
  | .error e => (some e, r.2)
  | .ok pods => (none, deletePodsLoop b nodeID pods r.2)

/-- The ready condition `DoCheck` builds, with its transition time set. -/
def newReadyCondition (b : Behaviour) (node : Node) (w : World) : NodeCondition × World :=
  let r := checkNodeReady b node w
  match getCondition node NodeReady with
  | some old =>
    if old.Status = r.1.Status then
      ({ r.1 with LastTransitionTime := old.LastTransitionTime }, r.2)
    else
      let t := Now b r.2
      ({ r.1 with LastTransitionTime := t.1 }, t.2)
  | none =>
    let t := Now b r.2
    ({ r.1 with LastTransitionTime := t.1 }, t.2)

/-- Embeds `DoCheck`: health checking for one node.  The returned list holds the
new ready condition only. -/
def DoCheck (s : NodeController) (b : Behaviour) (node : Node) (w : World) :
    List NodeCondition × World :=
  let r := newReadyCondition b node w
  if r.1.Status ≠ ConditionStatus.ConditionFull then
    if r.1.LastProbeTime > r.1.LastTransitionTime + s.podEvictionTimeout then
      ([r.1], (deletePods b node.Name r.2).2)
    else ([r.1], r.2)
  else ([r.1], r.2)

/-! ## Registration -/

/-- Embeds `strings.ToLower` on ASCII letters. -/
def ToLower (s : String) : String := String.mk (s.data.map Char.toLower)

/-- Embeds `canonicalizeName`: lowercases every node name. -/
def canonicalizeName (nodes : NodeList) : NodeList :=
  { Items := nodes.Items.map (fun n => { n with Name := ToLower n.Name }) }

/-- Go `util.StringSet`, kept as a list without repetition. -/
abbrev StringSet := List String

def StringSet.Has (r : StringSet) (x : String) : Bool := decide (x ∈ r)

def StringSet.Insert (r : StringSet) (x : String) : StringSet :=
  if x ∈ r then r else r ++ [x]

def StringSet.Len (r : StringSet) : Nat := r.length

/-- One pass of `RegisterNodes` over `nodes.Items`; `total` is `len(nodes.Items)`.
The boolean tells that the pass returned from the function (all registered). -/
def registerPass (b : Behaviour) (total : Nat) :
    List Node → StringSet → World → (StringSet × Bool) × World
  | [], registered, w => ((registered, false), w)
  | node :: rest, registered, w =>
    if registered.Has node.Name then registerPass b total rest registered w
    else
      let r := NodesCreate b node w
      let registered1 :=
        match r.1 with
        | none => registered.Insert node.Name
        | some e => if IsAlreadyExists e then registered.Insert node.Name else registered
      if registered1.Len = total then ((registered1, true), r.2)
      else registerPass b total rest registered1 r.2

/-- The retry loop of `RegisterNodes`, with the number of passes left. -/
def registerLoop (b : Behaviour) (items : List Node) (retryInterval : Duration) :
    Nat → StringSet → World → Option Err × World
  | 0, registered, w =>
    if registered.Len ≠ items.length then (some Err.ErrRegistration, w) else (none, w)
  | k + 1, registered, w =>
    let r := registerPass b items.length items registered w
    if r.1.2 then (none, r.2)
    else registerLoop b items retryInterval k r.1.1 (Sleep retryInterval r.2)

/-- Embeds `RegisterNodes`.  The loop `for i := 0; i < retryCount; i++` makes
`retryCount` passes, none when `retryCount` is not positive. -/
def RegisterNodes (b : Behaviour) (nodes : NodeList) (retryCount : Int)
    (retryInterval : Duration) (w : World) : Option Err × World :=
  registerLoop b (canonicalizeName nodes).Items retryInterval retryCount.toNat [] w

/-! ## Cloud inventory -/

/-- Calls `cloud.Instances()`. -/
def Instances (b : Behaviour) (w : World) : Bool × World :=
  (b.instancesOk w, w.log Call.Instances)

/-- Calls `instances.List(re)`. -/
def InstancesList (b : Behaviour) (re : String) (w : World) :
    Except Err (List String) × World :=
  (b.instanceList re w, w.log (Call.InstancesList re))

/-- Calls `instances.GetNodeResources(name)`. -/
def GetNodeResources (b : Behaviour) (name : String) (w : World) :
    Except Err (Option NodeResources) × World :=
  (b.resources name w, w.log (Call.GetNodeResources name))

/-- The node `CloudNodes` builds for one instance: the provider's resources, or the
static ones when the provider has none, give the capacity when they are non-nil. -/
def cloudNode (s : NodeController) (m : String) (resources : Option NodeResources) : Node :=
  let resources1 := match resources with
    | none => s.staticResources
    | some x => some x
  match resources1 with
  | some x => { Node.named m with Spec := { Capacity := x.Capacity } }
  | none => Node.named m

/-- The loop of `CloudNodes` over the matching instances; `acc` is `result.Items`. -/
def cloudNodesLoop (s : NodeController) (b : Behaviour) :
    List String → List Node → World → (Option NodeList × Option Err) × World
  | [], acc, w => ((some { Items := acc }, none), w)
  | m :: rest, acc, w =>
    let r := GetNodeResources b m w
    match r.1 with
    | .error e => ((none, some e), r.2)
    | .ok resources => cloudNodesLoop s b rest (acc ++ [cloudNode s m resources]) r.2

/-- Embeds `CloudNodes`; the returned list is `none` for a nil `*api.NodeList`.
The method is reached only with a non-nil `cloud`. -/
def CloudNodes (s : NodeController) (b : Behaviour) (w : World) :
    (Option NodeList × Option Err) × World :=
  let i := Instances b w
  if ¬ i.1 then ((some { Items := [] }, some Err.ErrCloudInstance), i.2)
  else
    let r := InstancesList b s.matchRE i.2
    match r.1 with
    | .error e => ((some { Items := [] }, some e), r.2)
    | .ok instanceNames => cloudNodesLoop s b instanceNames [] r.2

/-- The first loop of `SyncCloud`; `nodeMap` holds the keys of the Go map. -/
def syncCreateLoop (b : Behaviour) : List Node → List String → World → List String × World
  | [], nodeMap, w => (nodeMap, w)
  | node :: rest, nodeMap, w =>
    let w1 := if node.Name ∈ nodeMap then w else (NodesCreate b node w).2
    syncCreateLoop b rest (nodeMap.filter (fun k => k ≠ node.Name)) w1

/-- The second loop of `SyncCloud`, over the keys left in the map, given in the order
in which the runtime ranges over them. -/
def syncDeleteLoop (b : Behaviour) : List String → World → World
  | [], w => w
  | nodeID :: rest, w =>
    syncDeleteLoop b rest (deletePods b nodeID (NodesDelete b nodeID w).2).2

/-- Embeds `SyncCloud`.  With a nil error `CloudNodes` returns a non-nil list, so
the `none` list is met only together with an error.  The keys left in `nodeMap` are
ranged over in the order `mapOrder` gives. -/
def SyncCloud (s : NodeController) (b : Behaviour) (w : World) : Option Err × World :=
  let c := CloudNodes s b w
  match c.1.2 with
  | some e => (some e, c.2)
  | none =>
    let r := NodesList b c.2
    match r.1 with
    | .error e => (some e, r.2)
    | .ok nodes =>
      let nodeMap := (nodes.Items.map Node.Name).dedup
      let cloudItems := match c.1.1 with
        | some l => l.Items
        | none => []
      let m := syncCreateLoop b cloudItems nodeMap r.2
      (none, syncDeleteLoop b (b.mapOrder m.1) m.2)

/-! ## Address resolution and status sync -/

/-- Embeds `isRunningCloudProvider`. -/
def isRunningCloudProvider (s : NodeController) : Bool :=
  s.cloud && decide (s.matchRE.length > 0)

/-- Calls `instances.IPAddress(name)`; the answer is `hostIP.String()`. -/
def IPAddress (b : Behaviour) (name : String) (w : World) : Except Err String × World :=
  (b.ipAddress name w, w.log (Call.IPAddress name))

/-- Calls `instances.InstanceID(name)`. -/
def InstanceID (b : Behaviour) (name : String) (w : World) : Except Err String × World :=
  (b.instanceID name w, w.log (Call.InstanceID name))

/-- Calls `net.LookupIP(name)`; the addresses come as their strings. -/
def LookupIP (b : Behaviour) (name : String) (w : World) :
    Except Err (List String) × World :=
  (b.lookupIP name w, w.log (Call.LookupIP name))

def Node.withHostIP (node : Node) (ip : String) : Node :=
  { node with Status := { node.Status with HostIP := ip } }

def Node.withInstanceID (node : Node) (id : String) : Node :=
  { node with Status := { node.Status with InstanceID := id } }

def Node.withConditions (node : Node) (conds : List NodeCondition) : Node :=
  { node with Status := { node.Status with Conditions := conds } }

/-- The loop of `PopulateIPs` when running with a cloud provider. -/
def populateCloudLoop (b : Behaviour) : List Node → World → List Node × World
  | [], w => ([], w)
  | node :: rest, w =>
    let a := IPAddress b node.Name w
    let node1 := match a.1 with
      | .error _ => node
      | .ok hostIP => node.withHostIP hostIP
    let i := InstanceID b node.Name a.2
    let node2 := match i.1 with
      | .error _ => node1
      | .ok instanceID => node1.withInstanceID instanceID
    let r := populateCloudLoop b rest i.2
    (node2 :: r.1, r.2)

/-- The loop of `PopulateIPs` in static mode. -/
def populateStaticLoop (b : Behaviour) : List Node → World → List Node × World
  | [], w => ([], w)
  | node :: rest, w =>
    if b.parseIP node.Name then
      let r := populateStaticLoop b rest w
      (node.withHostIP node.Name :: r.1, r.2)
    else
      let l := LookupIP b node.Name w
      let node1 := match l.1 with
        | .error _ => node
        | .ok [] => node
        | .ok (addr :: _) => node.withHostIP addr
      let r := populateStaticLoop b rest l.2
      (node1 :: r.1, r.2)

/-- Embeds `PopulateIPs`, on a non-nil node list. -/
def PopulateIPs (s : NodeController) (b : Behaviour) (nodes : NodeList) (w : World) :
    (NodeList × Option Err) × World :=
  if isRunningCloudProvider s then
    let i := Instances b w
    if ¬ i.1 then ((nodes, some Err.ErrCloudInstance), i.2)
    else
      let r := populateCloudLoop b nodes.Items i.2
      (({ Items := r.1 }, none), r.2)
  else
    let r := populateStaticLoop b nodes.Items w
    (({ Items := r.1 }, none), r.2)

/-- The checks `DoChecks` starts, one goroutine per node, run here one after the
other in the order of the list. -/
def doChecksLoop (s : NodeController) (b : Behaviour) : List Node → World → List Node × World
  | [], w => ([], w)
  | node :: rest, w =>
    let c := DoCheck s b node w
    let r := doChecksLoop s b rest c.2
    (node.withConditions c.1 :: r.1, r.2)

/-- Embeds `DoChecks`, on a non-nil node list. -/
def DoChecks (s : NodeController) (b : Behaviour) (nodes : NodeList) (w : World) :
    NodeList × World :=
  let r := doChecksLoop s b nodes.Items w
  ({ Items := r.1 }, r.2)

/-- The loop of `SyncNodeStatus` that writes every node back. -/
def updateLoop (b : Behaviour) : List Node → World → World
  | [], w => w
  | node :: rest, w => updateLoop b rest (NodesUpdate b node w).2

/-- Embeds `SyncNodeStatus`. -/
def SyncNodeStatus (s : NodeController) (b : Behaviour) (w : World) : Option Err × World :=
  let l := NodesList b w
  match l.1 with
  | .error e => (some e, l.2)
  | .ok nodes =>
    let c := DoChecks s b nodes l.2
    let p := PopulateIPs s b c.1 c.2
    match p.1.2 with
    | some e => (some e, p.2)
    | none => (none, updateLoop b p.1.1.Items p.2)

/-! ## Bootstrap -/

/-- Result of code that may dereference a nil pointer, which in Go is a run-time
panic. -/
inductive Outcome (α : Type) where
  | done (a : α)
  | nilDereference
  deriving DecidableEq, Repr

/-- Embeds `StaticNodes`.  It reads `s.staticResources.Capacity` for every static
node, which dereferences `staticResources`. -/
def StaticNodes (s : NodeController) : Outcome (NodeList × Option Err) :=
  match s.nodes, s.staticResources with
  | [], _ => .done ({ Items := [] }, none)
  | _ :: _, none => .nilDereference
  | ids, some res =>
    .done ({ Items := ids.map (fun nodeID =>
      { Node.named nodeID with Spec := { Capacity := res.Capacity } }) }, none)

/-- The node list the bootstrap of `Run` holds when it reaches `DoChecks`; the list
is `none` for a nil `*api.NodeList`.  An error of `CloudNodes` or `StaticNodes` is
logged and the list is used all the same. -/
def initialNodes (s : NodeController) (b : Behaviour) (syncNodeList : Bool) (w : World) :
    Outcome (Option NodeList × World) :=
  if isRunningCloudProvider s then
    if syncNodeList then
      let c := CloudNodes s b w
      .done (c.1.1, c.2)
    else .done (some { Items := [] }, w)
  else
    match StaticNodes s with
    | .nilDereference => .nilDereference
    | .done r => .done (some r.1, w)

/-- Embeds the bootstrap of `Run`, up to the start of the periodic loops.
`DoChecks` reads `nodes.Items`, which dereferences the list; it returns the list it
was given, so `PopulateIPs` and `RegisterNodes` get a non-nil list once `DoChecks`
has run.  Errors of `PopulateIPs` and `RegisterNodes` are logged. -/
def Run (s : NodeController) (b : Behaviour) (period : Duration) (syncNodeList : Bool)
    (w : World) : Outcome World :=
  match initialNodes s b syncNodeList w with
  | .nilDereference => .nilDereference
  | .done (none, _) => .nilDereference
  | .done (some nodes, w1) =>
    let c := DoChecks s b nodes w1
    let p := PopulateIPs s b c.1 c.2
    let r := RegisterNodes b p.1.1 s.registerRetryCount period p.2
    .done r.2

end controller

/-! ## The exec admission plugin

Embedding of `plugin/pkg/admission/exec/denyhostipc/admission.go`. -/

namespace denyhostipc

structure SecurityContext where
  UseHostIpc : Option Bool
  deriving DecidableEq, Repr

structure Container where
  SecurityContext : Option SecurityContext
  deriving DecidableEq, Repr

structure PodSpec where
  Containers : List Container
  deriving DecidableEq, Repr

structure Pod where
  Spec : PodSpec
  deriving DecidableEq, Repr

structure ConnectRequest where
  Name : String
  ResourcePath : String
  deriving DecidableEq, Repr

/-- The object of an admission request: a `*rest.ConnectRequest` or anything else. -/
inductive Object where
  | connect (r : ConnectRequest)
  | other
  deriving DecidableEq, Repr

structure Attributes where
  Object : Object
  Namespace : String
  deriving DecidableEq, Repr

/-- Errors `Admit` returns, with their detail. -/
inductive AdmitError where
  | BadRequest (msg : String)
  | Forbidden (detail : String)
  deriving DecidableEq, Repr

/-- The pods client: what `Pods(namespace).Get(name)` answers. -/
abbrev PodGetter := String → String → Except String Pod

/-- The loop of `isUsingHostIpc` over the containers. -/
def usesHostIpc : List Container → Bool
  | [] => false
  | c :: rest =>
    match c.SecurityContext with
    | none => usesHostIpc rest
    | some sc =>
      match sc.UseHostIpc with
      | none => usesHostIpc rest
      | some v => if v then true else usesHostIpc rest

/-- Embeds `isUsingHostIpc`: whether any container of the pod uses host ipc. -/
def isUsingHostIpc (pod : Pod) : Bool := usesHostIpc pod.Spec.Containers

/-- Embeds `Admit`.  The second component lists the pods fetched so far, as
(namespace, name) pairs. -/
def Admit (get : PodGetter) (a : Attributes) (fetched : List (String × String)) :
    Option AdmitError × List (String × String) :=
  match a.Object with
  | .other =>
    (some (.BadRequest
      "a connect request was received, but could not convert the request object."), fetched)
  | .connect connectRequest =>
    if connectRequest.ResourcePath ≠ "pods/exec" then (none, fetched)
    else
      match get a.Namespace connectRequest.Name with
      | .error e => (some (.Forbidden e), fetched ++ [(a.Namespace, connectRequest.Name)])
      | .ok pod =>
        if isUsingHostIpc pod then
          (some (.Forbidden "Cannot exec container using host ipc"),
            fetched ++ [(a.Namespace, connectRequest.Name)])
        else (none, fetched ++ [(a.Namespace, connectRequest.Name)])

end denyhostipc

namespace controller

/-! ## Sample collaborators and inputs -/

/-- Collaborators on which every call succeeds: the clock reads 0, 1, 2, ..., every
probe reports success, the provider lists no instance, every address lookup
answers `10.0.0.1`, and a map is ranged over in the order its keys were inserted. -/
def calm : Behaviour :=
  { clock := fun k => (k : Int)
    health := fun _ _ => (ProbeStatus.Success, none)
    createErr := fun _ _ => none
    listNodesErr := fun _ => none
    deleteErr := fun _ _ => none
    updateErr := fun _ _ => none
    listPodsErr := fun _ => none
    deletePodErr := fun _ _ => none
    instancesOk := fun _ => true
    instanceList := fun _ _ => .ok []
    resources := fun _ _ => .ok none
    ipAddress := fun _ _ => .ok "10.0.0.1"
    instanceID := fun _ _ => .ok "i-1"
    parseIP := fun _ => false
    lookupIP := fun _ _ => .ok ["10.0.0.1"]
    mapOrder := fun keys => keys
    mapOrder_perm := fun keys => List.Perm.refl keys }

/-- As `calm`, with every probe reporting failure. -/
def failing : Behaviour :=
  { calm with health := fun _ _ => (ProbeStatus.Failure, none) }

/-- A world with an empty store in which nothing has happened yet. -/
def emptyWorld : World := { nodes := [], pods := [], ticks := 0, trace := [] }

/-- A controller in static mode with the given eviction timeout. -/
def staticController (timeout : Duration) : NodeController :=
  { cloud := false, matchRE := "", staticResources := none, nodes := [],
    registerRetryCount := 1, podEvictionTimeout := timeout }

/-- A ready condition as stored by an earlier evaluation. -/
def storedCondition (st : ConditionStatus) (probe transition : Time) : NodeCondition :=
  { Kind := NodeReady, Status := st, LastProbeTime := probe,
    LastTransitionTime := transition, Reason := "" }

/-- A node carrying the given conditions. -/
def nodeWith (name : String) (conds : List NodeCondition) : Node :=
  { Node.named name with Status := { HostIP := "", InstanceID := "", Conditions := conds } }

/-- The calls that create or delete a node record. -/
def isNodeWrite : Call → Bool
  | Call.NodesCreate _ => true
  | Call.NodesDelete _ => true
  | _ => false

/-- What `SyncCloud` does for one instance that has no record: create it. -/
def createStep (b : Behaviour) (w : World) (node : Node) : World := (NodesCreate b node w).2

/-- What `SyncCloud` does for one record that has no instance: delete the record,
then delete the pods of that node. -/
def deleteStep (b : Behaviour) (w : World) (nodeID : String) : World :=
  (deletePods b nodeID (NodesDelete b nodeID w).2).2

/-- As `calm`, with the provider listing the given instances. -/
def calmCloud (insts : List String) : Behaviour :=
  { calm with instanceList := fun _ _ => .ok insts }

/-- A controller running with a cloud provider. -/
def cloudController : NodeController :=
  { cloud := true, matchRE := ".*", staticResources := none, nodes := [],
    registerRetryCount := 1, podEvictionTimeout := 100 }

/-- A world whose store holds bare records of the given node names and the given
pods, as (name, host) pairs. -/
def worldOf (names : List String) (pods : List (String × String)) : World :=
  { nodes := names.map Node.named,
    pods := pods.map (fun p => { Name := p.1, Status := { Host := p.2 } }),
    ticks := 0, trace := [] }

/-- As `calm`, with a store that rejects every Create of the name `X` with an error
other than already-exists. -/
def rejecting (X : String) : Behaviour :=
  { calm with
    createErr := fun n _ => if n.Name = X then some (Err.Other "rejected") else none }

/-- As `calm`, with a store on which Create fails with already-exists for a name
that has a record. -/
def conflicting : Behaviour :=
  { calm with
    createErr := fun n w =>
      if n.Name ∈ w.nodeNames then some (Err.AlreadyExists n.Name) else none }

/-- The list of bare nodes with the given names. -/
def nodeList (names : List String) : NodeList := { Items := names.map Node.named }

/-- As `calmCloud`, with the capacity query failing for the instance `bad`. -/
def brokenResources (insts : List String) (bad : String) : Behaviour :=
  { calm with
    instanceList := fun _ _ => .ok insts
    resources := fun m _ => if m = bad then .error (Err.Other "no resources") else .ok none }

/-- The calls that create, delete or update a node record. -/
def isNodeMutation : Call → Bool
  | Call.NodesCreate _ => true
  | Call.NodesDelete _ => true
  | Call.NodesUpdate _ => true
  | _ => false

/-- A step from `w` to `w1` that leaves the node records alone and makes no call
that creates, deletes or updates a node record. -/
def Quiet (w w1 : World) : Prop :=
  w1.nodes = w.nodes ∧ ∃ tr, w1.trace = w.trace ++ tr ∧ ∀ c ∈ tr, isNodeMutation c = false

/-- As `calm`, with a store on which every Update of the node `bad` fails. -/
def flakyUpdate (bad : String) : Behaviour :=
  { calm with
    updateErr := fun n _ => if n.Name = bad then some (Err.Other "update failed") else none }

/-- As `conflicting`, with the provider listing the given instances. -/
def conflictingCloud (insts : List String) : Behaviour :=
  { conflicting with instanceList := fun _ _ => .ok insts }

/-! ## Facts about the health check -/

theorem checkNodeReady_world (b : Behaviour) (node : Node) (w : World) :
    (checkNodeReady b node w).2 =
      { w with ticks := w.ticks + 1, trace := w.trace ++ [Call.HealthCheck node.Name] } := by
  unfold checkNodeReady HealthCheck Now World.log
  cases h : (b.health node.Name w).2 with
  | some e => simp [h]
  | none =>
    by_cases hf : (b.health node.Name w).1 = ProbeStatus.Failure <;> simp [h, hf]

theorem checkNodeReady_probeTime (b : Behaviour) (node : Node) (w : World) :
    (checkNodeReady b node w).1.LastProbeTime = b.clock w.ticks := by
  unfold checkNodeReady HealthCheck Now World.log
  cases h : (b.health node.Name w).2 with
  | some e => simp [h]
  | none =>
    by_cases hf : (b.health node.Name w).1 = ProbeStatus.Failure <;> simp [h, hf]

theorem checkNodeReady_kind (b : Behaviour) (node : Node) (w : World) :
    (checkNodeReady b node w).1.Kind = NodeReady := by
  unfold checkNodeReady HealthCheck Now World.log
  cases h : (b.health node.Name w).2 with
  | some e => simp [h]
  | none =>
    by_cases hf : (b.health node.Name w).1 = ProbeStatus.Failure <;> simp [h, hf]

/-- C6: `checkNodeReady` returns a `NodeReady` condition whose status is
`ConditionUnknown` on any error, `ConditionNone` on a failure without error and
`ConditionFull` on a success without error; it is `ConditionFull` only for a
success without error, that is, in the terms of the switch, exactly when there is no
error and the status is not `Failure`. -/
theorem checkNodeReady_status (b : Behaviour) (node : Node) (w : World) :
    (checkNodeReady b node w).1.Kind = NodeReady ∧
    (checkNodeReady b node w).1.Status =
      (match b.health node.Name w with
        | (_, some _) => ConditionStatus.ConditionUnknown
        | (ProbeStatus.Failure, none) => ConditionStatus.ConditionNone
        | (ProbeStatus.Success, none) => ConditionStatus.ConditionFull) ∧
    ((checkNodeReady b node w).1.Status = ConditionStatus.ConditionFull ↔
      b.health node.Name w = (ProbeStatus.Success, none)) ∧
    ((checkNodeReady b node w).1.Status = ConditionStatus.ConditionFull ↔
      (b.health node.Name w).2 = none ∧ (b.health node.Name w).1 ≠ ProbeStatus.Failure) := by
  refine ⟨checkNodeReady_kind b node w, ?_, ?_, ?_⟩
  · unfold checkNodeReady HealthCheck Now World.log
    rcases h : b.health node.Name w with ⟨st, err⟩
    cases err with
    | some e => simp
    | none => cases st <;> simp
  · unfold checkNodeReady HealthCheck Now World.log
    rcases h : b.health node.Name w with ⟨st, err⟩
    cases err with
    | some e => simp
    | none => cases st <;> simp
  · unfold checkNodeReady HealthCheck Now World.log
    rcases h : b.health node.Name w with ⟨st, err⟩
    cases err with
    | some e => simp
    | none => cases st <;> simp

/-! ## Facts about the transition time -/

theorem newReadyCondition_same (b : Behaviour) (node : Node) (w : World)
    (old : NodeCondition) (h : getCondition node NodeReady = some old)
    (hs : old.Status = (checkNodeReady b node w).1.Status) :
    newReadyCondition b node w =
      ({ (checkNodeReady b node w).1 with LastTransitionTime := old.LastTransitionTime },
        (checkNodeReady b node w).2) := by
  unfold newReadyCondition
  simp [h, hs]

theorem newReadyCondition_changed (b : Behaviour) (node : Node) (w : World)
    (old : NodeCondition) (h : getCondition node NodeReady = some old)
    (hs : old.Status ≠ (checkNodeReady b node w).1.Status) :
    newReadyCondition b node w =
      ({ (checkNodeReady b node w).1 with LastTransitionTime := b.clock (w.ticks + 1) },
        { w with ticks := w.ticks + 2, trace := w.trace ++ [Call.HealthCheck node.Name] }) := by
  unfold newReadyCondition
  simp [h, hs, Now, checkNodeReady_world]

theorem newReadyCondition_first (b : Behaviour) (node : Node) (w : World)
    (h : getCondition node NodeReady = none) :
    newReadyCondition b node w =
      ({ (checkNodeReady b node w).1 with LastTransitionTime := b.clock (w.ticks + 1) },
        { w with ticks := w.ticks + 2, trace := w.trace ++ [Call.HealthCheck node.Name] }) := by
  unfold newReadyCondition
  simp [h, Now, checkNodeReady_world]

/-- Whatever the branch, the evaluation leaves the store alone and logs the health check. -/
theorem newReadyCondition_frame (b : Behaviour) (node : Node) (w : World) :
    (newReadyCondition b node w).2.nodes = w.nodes ∧
    (newReadyCondition b node w).2.pods = w.pods ∧
    (newReadyCondition b node w).2.trace = w.trace ++ [Call.HealthCheck node.Name] ∧
    (newReadyCondition b node w).1.LastProbeTime = b.clock w.ticks ∧
    (newReadyCondition b node w).1.Kind = NodeReady ∧
    (newReadyCondition b node w).1.Status = (checkNodeReady b node w).1.Status := by
  cases h : getCondition node NodeReady with
  | none =>
    rw [newReadyCondition_first b node w h]
    simp [checkNodeReady_probeTime, checkNodeReady_kind]
  | some old =>
    by_cases hs : old.Status = (checkNodeReady b node w).1.Status
    · rw [newReadyCondition_same b node w old h hs]
      simp [checkNodeReady_probeTime, checkNodeReady_kind, checkNodeReady_world]
    · rw [newReadyCondition_changed b node w old h hs]
      simp [checkNodeReady_probeTime, checkNodeReady_kind]

theorem DoCheck_conditions (s : NodeController) (b : Behaviour) (node : Node) (w : World) :
    (DoCheck s b node w).1 = [(newReadyCondition b node w).1] := by
  unfold DoCheck
  by_cases h1 : (newReadyCondition b node w).1.Status ≠ ConditionStatus.ConditionFull
  · by_cases h2 : (newReadyCondition b node w).1.LastProbeTime >
        (newReadyCondition b node w).1.LastTransitionTime + s.podEvictionTimeout
    · simp [h1, h2]
    · simp [h1, h2]
  · simp [h1]

/-! ## Facts about pod deletion -/

theorem deletePodsLoop_count_list (b : Behaviour) (nodeID : String) (pods : List Pod) :
    ∀ w : World, (deletePodsLoop b nodeID pods w).trace.count Call.PodsList =
      w.trace.count Call.PodsList := by
  induction pods with
  | nil => intro w; rfl
  | cons pod rest ih =>
    intro w
    unfold deletePodsLoop
    by_cases hh : pod.Status.Host ≠ nodeID
    · rw [if_pos hh]; exact ih w
    · rw [if_neg hh, ih]
      unfold PodsDelete World.log
      cases b.deletePodErr pod.Name w <;> simp

theorem deletePods_count_list (b : Behaviour) (nodeID : String) (w : World) :
    (deletePods b nodeID w).2.trace.count Call.PodsList = w.trace.count Call.PodsList + 1 := by
  unfold deletePods
  cases h : b.listPodsErr w with
  | some e => simp [PodsList, h, World.log]
  | none => simp [PodsList, h, deletePodsLoop_count_list, World.log]

/-- C1: `DoCheck` runs `deletePods` on the node exactly when the new ready condition
is not `ConditionFull` and its probe time is after its transition time plus the
eviction timeout: the world it leaves is then the one `deletePods` leaves, with one
more listing of the pods; otherwise the pod store is as before and the only call
made is the health check. -/
theorem DoCheck_deletes_pods_iff (s : NodeController) (b : Behaviour) (node : Node)
    (w : World) :
    (DoCheck s b node w).1 = [(newReadyCondition b node w).1] ∧
    (DoCheck s b node w).2 =
      (if (newReadyCondition b node w).1.Status ≠ ConditionStatus.ConditionFull ∧
          (newReadyCondition b node w).1.LastProbeTime >
            (newReadyCondition b node w).1.LastTransitionTime + s.podEvictionTimeout
        then (deletePods b node.Name (newReadyCondition b node w).2).2
        else (newReadyCondition b node w).2) ∧
    ((DoCheck s b node w).2.trace.count Call.PodsList = w.trace.count Call.PodsList + 1 ↔
      ((newReadyCondition b node w).1.Status ≠ ConditionStatus.ConditionFull ∧
        (newReadyCondition b node w).1.LastProbeTime >
          (newReadyCondition b node w).1.LastTransitionTime + s.podEvictionTimeout)) ∧
    (¬ ((newReadyCondition b node w).1.Status ≠ ConditionStatus.ConditionFull ∧
        (newReadyCondition b node w).1.LastProbeTime >
          (newReadyCondition b node w).1.LastTransitionTime + s.podEvictionTimeout) →
      (DoCheck s b node w).2.pods = w.pods ∧
      (DoCheck s b node w).2.trace = w.trace ++ [Call.HealthCheck node.Name]) := by
  obtain ⟨-, hp, ht, -, -, -⟩ := newReadyCondition_frame b node w
  have hw : (DoCheck s b node w).2 =
      (if (newReadyCondition b node w).1.Status ≠ ConditionStatus.ConditionFull ∧
          (newReadyCondition b node w).1.LastProbeTime >
            (newReadyCondition b node w).1.LastTransitionTime + s.podEvictionTimeout
        then (deletePods b node.Name (newReadyCondition b node w).2).2
        else (newReadyCondition b node w).2) := by
    unfold DoCheck
    by_cases h1 : (newReadyCondition b node w).1.Status ≠ ConditionStatus.ConditionFull
    · by_cases h2 : (newReadyCondition b node w).1.LastProbeTime >
          (newReadyCondition b node w).1.LastTransitionTime + s.podEvictionTimeout
      · simp [h1, h2]
      · simp [h1, h2]
    · simp [h1]
  refine ⟨DoCheck_conditions s b node w, hw, ?_, ?_⟩
  · rw [hw]
    by_cases hc : (newReadyCondition b node w).1.Status ≠ ConditionStatus.ConditionFull ∧
          (newReadyCondition b node w).1.LastProbeTime >
            (newReadyCondition b node w).1.LastTransitionTime + s.podEvictionTimeout
    · rw [if_pos hc, deletePods_count_list, ht]
      simp [hc]
    · rw [if_neg hc, ht]
      simp [hc]
  · intro hc
    rw [hw, if_neg hc]
    exact ⟨hp, ht⟩

/-- C2: when the node has a stored ready condition and the probe reduces to the
same status, the ready condition `DoCheck` returns keeps the stored transition time. -/
theorem DoCheck_keeps_transitionTime (s : NodeController) (b : Behaviour) (node : Node)
    (w : World) (old : NodeCondition)
    (h : getCondition node NodeReady = some old)
    (hs : (checkNodeReady b node w).1.Status = old.Status) :
    ∃ c, (DoCheck s b node w).1 = [c] ∧ c.Kind = NodeReady ∧ c.Status = old.Status ∧
      c.LastTransitionTime = old.LastTransitionTime := by
  refine ⟨(newReadyCondition b node w).1, DoCheck_conditions s b node w, ?_, ?_, ?_⟩
  · exact (newReadyCondition_frame b node w).2.2.2.2.1
  · rw [(newReadyCondition_frame b node w).2.2.2.2.2, hs]
  · rw [newReadyCondition_same b node w old h hs.symm]

theorem DoCheck_keeps_transitionTime_witness :
    getCondition (nodeWith "n1" [storedCondition ConditionStatus.ConditionNone 7 5]) NodeReady
        = some (storedCondition ConditionStatus.ConditionNone 7 5) ∧
    (checkNodeReady failing
        (nodeWith "n1" [storedCondition ConditionStatus.ConditionNone 7 5]) emptyWorld).1.Status
        = (storedCondition ConditionStatus.ConditionNone 7 5).Status ∧
    ∃ c, (DoCheck (staticController 100) failing
        (nodeWith "n1" [storedCondition ConditionStatus.ConditionNone 7 5]) emptyWorld).1 = [c] ∧
      c.Kind = NodeReady ∧
      c.Status = (storedCondition ConditionStatus.ConditionNone 7 5).Status ∧
      c.LastTransitionTime = (storedCondition ConditionStatus.ConditionNone 7 5).LastTransitionTime :=
  ⟨by decide, by decide,
   DoCheck_keeps_transitionTime (staticController 100) failing
    (nodeWith "n1" [storedCondition ConditionStatus.ConditionNone 7 5]) emptyWorld
    (storedCondition ConditionStatus.ConditionNone 7 5) (by decide) (by decide)⟩

/-- C3, as stated, fails: on a first evaluation with a clock that advances between
readings the returned condition has probe time 0 and transition time 1. -/
theorem DoCheck_transitionTime_differs :
    getCondition (nodeWith "n1" []) NodeReady = none ∧
    (DoCheck (staticController 100) calm (nodeWith "n1" []) emptyWorld).1.map
        (fun c => (c.LastProbeTime, c.LastTransitionTime)) = [(0, 1)] := by
  decide

/-- C3, amended: when the node has no stored ready condition, or its stored status
differs from the fresh one, the returned condition has as probe time the first clock
reading of the evaluation and as transition time the next reading; the two times are
equal exactly when these two readings are. -/
theorem DoCheck_fresh_transitionTime (s : NodeController) (b : Behaviour) (node : Node)
    (w : World)
    (h : getCondition node NodeReady = none ∨
      ∃ old, getCondition node NodeReady = some old ∧
        old.Status ≠ (checkNodeReady b node w).1.Status) :
    ∃ c, (DoCheck s b node w).1 = [c] ∧
      c.LastProbeTime = b.clock w.ticks ∧
      c.LastTransitionTime = b.clock (w.ticks + 1) ∧
      (c.LastTransitionTime = c.LastProbeTime ↔ b.clock (w.ticks + 1) = b.clock w.ticks) := by
  have hp := (newReadyCondition_frame b node w).2.2.2.1
  have ht : (newReadyCondition b node w).1.LastTransitionTime = b.clock (w.ticks + 1) := by
    rcases h with h | ⟨old, h, hs⟩
    · rw [newReadyCondition_first b node w h]
    · rw [newReadyCondition_changed b node w old h hs]
  exact ⟨(newReadyCondition b node w).1, DoCheck_conditions s b node w, hp, ht, by rw [hp, ht]⟩

theorem DoCheck_fresh_transitionTime_witness :
    (getCondition (nodeWith "n1" []) NodeReady = none ∨
      ∃ old, getCondition (nodeWith "n1" []) NodeReady = some old ∧
        old.Status ≠ (checkNodeReady calm (nodeWith "n1" []) emptyWorld).1.Status) ∧
    ∃ c, (DoCheck (staticController 100) calm (nodeWith "n1" []) emptyWorld).1 = [c] ∧
      c.LastProbeTime = calm.clock emptyWorld.ticks ∧
      c.LastTransitionTime = calm.clock (emptyWorld.ticks + 1) ∧
      (c.LastTransitionTime = c.LastProbeTime ↔
        calm.clock (emptyWorld.ticks + 1) = calm.clock emptyWorld.ticks) :=
  ⟨Or.inl (by decide),
   DoCheck_fresh_transitionTime (staticController 100) calm (nodeWith "n1" []) emptyWorld
    (Or.inl (by decide))⟩

/-- C10, as stated, fails: the clock is non-decreasing and the stored condition is in
order and not after the current time, yet after a status change the returned
condition has its transition time after its probe time. -/
theorem DoCheck_transition_after_probe :
    Monotone failing.clock ∧
    getCondition (nodeWith "n1" [storedCondition ConditionStatus.ConditionFull (-3) (-5)])
        NodeReady = some (storedCondition ConditionStatus.ConditionFull (-3) (-5)) ∧
    (storedCondition ConditionStatus.ConditionFull (-3) (-5)).LastTransitionTime ≤
      (storedCondition ConditionStatus.ConditionFull (-3) (-5)).LastProbeTime ∧
    (storedCondition ConditionStatus.ConditionFull (-3) (-5)).LastProbeTime ≤
      failing.clock emptyWorld.ticks ∧
    ∃ c ∈ (DoCheck (staticController 100) failing
        (nodeWith "n1" [storedCondition ConditionStatus.ConditionFull (-3) (-5)])
        emptyWorld).1,
      ¬ (c.LastTransitionTime ≤ c.LastProbeTime) := by
  refine ⟨fun a c hac => Int.ofNat_le.mpr hac, by decide, by decide, by decide, ?_⟩
  decide

/-- C10, amended: under a non-decreasing clock and a stored ready condition (if any)
with transition time ≤ probe time ≤ current time, the returned condition has
transition time ≤ probe time when the stored status is carried forward; when there
is no stored condition or the status changed, its probe time is ≤ its transition
time, and the transition time is ≤ the probe time exactly when the two clock
readings of the evaluation are equal. -/
theorem DoCheck_time_order (s : NodeController) (b : Behaviour) (node : Node) (w : World)
    (hmono : Monotone b.clock)
    (hold : ∀ old, getCondition node NodeReady = some old →
      old.LastTransitionTime ≤ old.LastProbeTime ∧ old.LastProbeTime ≤ b.clock w.ticks) :
    ∃ c, (DoCheck s b node w).1 = [c] ∧
      ((∃ old, getCondition node NodeReady = some old ∧ old.Status = c.Status) →
        c.LastTransitionTime ≤ c.LastProbeTime) ∧
      ((¬ ∃ old, getCondition node NodeReady = some old ∧ old.Status = c.Status) →
        c.LastProbeTime ≤ c.LastTransitionTime ∧
        (c.LastTransitionTime ≤ c.LastProbeTime ↔
          b.clock (w.ticks + 1) = b.clock w.ticks)) := by
  obtain ⟨-, -, -, hp, -, hst⟩ := newReadyCondition_frame b node w
  have hle : b.clock w.ticks ≤ b.clock (w.ticks + 1) := hmono (Nat.le_succ _)
  refine ⟨(newReadyCondition b node w).1, DoCheck_conditions s b node w, ?_, ?_⟩
  · rintro ⟨old, h, hs⟩
    rw [hst] at hs
    rw [hp, newReadyCondition_same b node w old h hs]
    exact (hold old h).1.trans (hold old h).2
  · intro hno
    have ht : (newReadyCondition b node w).1.LastTransitionTime = b.clock (w.ticks + 1) := by
      cases h : getCondition node NodeReady with
      | none => rw [newReadyCondition_first b node w h]
      | some old =>
        have hs : old.Status ≠ (checkNodeReady b node w).1.Status := by
          intro hs
          exact hno ⟨old, h, by rw [hst]; exact hs⟩
        rw [newReadyCondition_changed b node w old h hs]
    rw [hp, ht]
    exact ⟨hle, ⟨fun h1 => le_antisymm h1 hle, fun h1 => h1.le⟩⟩

theorem DoCheck_time_order_witness :
    Monotone failing.clock ∧
    (∀ old, getCondition (nodeWith "n1" [storedCondition ConditionStatus.ConditionNone (-3) (-5)])
        NodeReady = some old →
      old.LastTransitionTime ≤ old.LastProbeTime ∧
        old.LastProbeTime ≤ failing.clock emptyWorld.ticks) ∧
    ∃ c, (DoCheck (staticController 100) failing
        (nodeWith "n1" [storedCondition ConditionStatus.ConditionNone (-3) (-5)])
        emptyWorld).1 = [c] ∧
      ((∃ old, getCondition (nodeWith "n1" [storedCondition ConditionStatus.ConditionNone (-3) (-5)])
          NodeReady = some old ∧ old.Status = c.Status) →
        c.LastTransitionTime ≤ c.LastProbeTime) ∧
      ((¬ ∃ old, getCondition (nodeWith "n1" [storedCondition ConditionStatus.ConditionNone (-3) (-5)])
          NodeReady = some old ∧ old.Status = c.Status) →
        c.LastProbeTime ≤ c.LastTransitionTime ∧
        (c.LastTransitionTime ≤ c.LastProbeTime ↔
          failing.clock (emptyWorld.ticks + 1) = failing.clock emptyWorld.ticks)) :=
  have hold : ∀ old, getCondition (nodeWith "n1"
        [storedCondition ConditionStatus.ConditionNone (-3) (-5)]) NodeReady = some old →
      old.LastTransitionTime ≤ old.LastProbeTime ∧
        old.LastProbeTime ≤ failing.clock emptyWorld.ticks := by
    intro old h
    obtain rfl : storedCondition ConditionStatus.ConditionNone (-3) (-5) = old :=
      Option.some.inj h
    decide
  ⟨fun a c hac => Int.ofNat_le.mpr hac, hold,
   DoCheck_time_order (staticController 100) failing
    (nodeWith "n1" [storedCondition ConditionStatus.ConditionNone (-3) (-5)]) emptyWorld
    (fun a c hac => Int.ofNat_le.mpr hac) hold⟩

/-- Names of the listed pods placed on the given node: the names `deletePods` deletes. -/
theorem deletePodsLoop_pods (b : Behaviour) (nodeID : String)
    (hdel : ∀ name w, b.deletePodErr name w = none) (l : List Pod) :
    ∀ w : World, (deletePodsLoop b nodeID l w).pods =
        w.pods.filter (fun p => p.Name ∉ (l.filter (fun q => q.Status.Host = nodeID)).map Pod.Name) ∧
      (deletePodsLoop b nodeID l w).nodes = w.nodes := by
  induction l with
  | nil => intro w; simp [deletePodsLoop]
  | cons q rest ih =>
    intro w
    unfold deletePodsLoop
    by_cases hh : q.Status.Host ≠ nodeID
    · rw [if_pos hh]
      have hq : ¬ q.Status.Host = nodeID := hh
      simpa [List.filter_cons, hq] using ih w
    · rw [if_neg hh]
      have hq : q.Status.Host = nodeID := not_not.mp hh
      obtain ⟨h1, h2⟩ := ih (PodsDelete b q.Name w).2
      refine ⟨?_, ?_⟩
      · rw [h1]
        simp only [PodsDelete, hdel, World.log, List.filter_filter]
        apply List.filter_congr
        intro p _
        simp [List.filter_cons, hq]
        exact Bool.and_comm _ _
      · rw [h2]
        simp [PodsDelete, hdel, World.log]

/-- C5, amended: when listing and every deletion succeed, over a store whose pods
have pairwise distinct names, `deletePods` returns nil and leaves exactly the pods
whose host is not the given node, each unchanged; the node records are untouched. -/
theorem deletePods_frame (b : Behaviour) (nodeID : String) (w : World)
    (hlist : b.listPodsErr w = none)
    (hdel : ∀ name w1, b.deletePodErr name w1 = none)
    (hnames : (w.pods.map Pod.Name).Nodup) :
    (deletePods b nodeID w).1 = none ∧
    (deletePods b nodeID w).2.pods = w.pods.filter (fun p => p.Status.Host ≠ nodeID) ∧
    (∀ p ∈ (deletePods b nodeID w).2.pods, p.Status.Host ≠ nodeID) ∧
    (∀ p ∈ w.pods, p.Status.Host ≠ nodeID → p ∈ (deletePods b nodeID w).2.pods) ∧
    (deletePods b nodeID w).2.nodes = w.nodes := by
  have hpods : (deletePods b nodeID w).2.pods =
      w.pods.filter (fun p => p.Status.Host ≠ nodeID) := by
    unfold deletePods
    simp only [PodsList, hlist]
    rw [(deletePodsLoop_pods b nodeID hdel w.pods _).1]
    simp only [World.log]
    apply List.filter_congr
    intro p hp
    have hinj := List.inj_on_of_nodup_map hnames
    by_cases hh : p.Status.Host = nodeID
    · have : p.Name ∈ (w.pods.filter (fun q => q.Status.Host = nodeID)).map Pod.Name :=
        List.mem_map.mpr ⟨p, List.mem_filter.mpr ⟨hp, by simpa using hh⟩, rfl⟩
      simp [hh, this]
    · have : p.Name ∉ (w.pods.filter (fun q => q.Status.Host = nodeID)).map Pod.Name := by
        intro hmem
        obtain ⟨q, hq, hname⟩ := List.mem_map.mp hmem
        obtain ⟨hqm, hqh⟩ := List.mem_filter.mp hq
        have : q = p := hinj hqm hp hname
        subst this
        exact hh (by simpa using hqh)
      simp [hh, this]
  refine ⟨?_, hpods, ?_, ?_, ?_⟩
  · unfold deletePods
    simp [PodsList, hlist]
  · intro p hp
    rw [hpods] at hp
    simpa using (List.mem_filter.mp hp).2
  · intro p hp hh
    rw [hpods]
    exact List.mem_filter.mpr ⟨hp, by simpa using hh⟩
  · unfold deletePods
    simp only [PodsList, hlist]
    rw [(deletePodsLoop_pods b nodeID hdel w.pods _).2]
    rfl

/-! ## Facts about the inventory diff -/

theorem deletePodsLoop_nodes (b : Behaviour) (nodeID : String) (l : List Pod) :
    ∀ w : World, (deletePodsLoop b nodeID l w).nodes = w.nodes ∧
      (deletePodsLoop b nodeID l w).trace.filter isNodeWrite = w.trace.filter isNodeWrite := by
  induction l with
  | nil => intro w; simp [deletePodsLoop]
  | cons q rest ih =>
    intro w
    unfold deletePodsLoop
    by_cases hh : q.Status.Host ≠ nodeID
    · rw [if_pos hh]; exact ih w
    · rw [if_neg hh]
      obtain ⟨h1, h2⟩ := ih (PodsDelete b q.Name w).2
      rw [h1, h2]
      unfold PodsDelete World.log
      cases b.deletePodErr q.Name w <;> simp [isNodeWrite]

theorem deletePods_nodes (b : Behaviour) (nodeID : String) (w : World) :
    (deletePods b nodeID w).2.nodes = w.nodes ∧
      (deletePods b nodeID w).2.trace.filter isNodeWrite = w.trace.filter isNodeWrite := by
  unfold deletePods PodsList
  cases h : b.listPodsErr w with
  | some e => simp [World.log, isNodeWrite]
  | none =>
    simp only []
    obtain ⟨h1, h2⟩ := deletePodsLoop_nodes b nodeID w.pods (w.log Call.PodsList)
    rw [h1, h2]
    simp [World.log, isNodeWrite]

theorem createStep_effect (b : Behaviour) (w : World) (node : Node)
    (hcreate : ∀ n w1, b.createErr n w1 = none) :
    (createStep b w node).nodeNames =
        (if node.Name ∈ w.nodeNames then w.nodeNames else w.nodeNames ++ [node.Name]) ∧
      (createStep b w node).trace.filter isNodeWrite =
        w.trace.filter isNodeWrite ++ [Call.NodesCreate node.Name] := by
  unfold createStep NodesCreate
  rw [hcreate]
  refine ⟨?_, ?_⟩
  · show List.map Node.Name (if node.Name ∈ w.nodeNames then w.nodes else w.nodes ++ [node]) = _
    split_ifs <;> simp [World.nodeNames]
  · simp [World.log, isNodeWrite]

theorem deleteStep_effect (b : Behaviour) (w : World) (nodeID : String)
    (hdelete : ∀ n w1, b.deleteErr n w1 = none) :
    (deleteStep b w nodeID).nodeNames = w.nodeNames.filter (fun m => m ≠ nodeID) ∧
      (deleteStep b w nodeID).trace.filter isNodeWrite =
        w.trace.filter isNodeWrite ++ [Call.NodesDelete nodeID] := by
  unfold deleteStep
  obtain ⟨h1, h2⟩ := deletePods_nodes b nodeID (NodesDelete b nodeID w).2
  unfold World.nodeNames
  rw [h1, h2]
  unfold NodesDelete
  rw [hdelete]
  simp [World.log, isNodeWrite, List.filter_map, Function.comp_def]

theorem cloudNode_name (s : NodeController) (m : String) (r : Option NodeResources) :
    (cloudNode s m r).Name = m := by
  unfold cloudNode
  cases r with
  | none => cases s.staticResources <;> rfl
  | some x => rfl

theorem cloudNodesLoop_ok (s : NodeController) (b : Behaviour)
    (hres : ∀ m w1, ∃ r, b.resources m w1 = .ok r) (rest : List String) :
    ∀ (acc : List Node) (w : World), ∃ items,
      (cloudNodesLoop s b rest acc w).1 = (some { Items := acc ++ items }, none) ∧
      items.map Node.Name = rest ∧
      (cloudNodesLoop s b rest acc w).2.nodes = w.nodes ∧
      (cloudNodesLoop s b rest acc w).2.pods = w.pods ∧
      (cloudNodesLoop s b rest acc w).2.trace.filter isNodeWrite =
        w.trace.filter isNodeWrite := by
  induction rest with
  | nil => intro acc w; exact ⟨[], by simp [cloudNodesLoop]⟩
  | cons m rest ih =>
    intro acc w
    obtain ⟨r, hr⟩ := hres m w
    unfold cloudNodesLoop
    simp only [GetNodeResources, hr]
    obtain ⟨items, h1, h2, h3, h4, h5⟩ := ih
      (acc ++ [cloudNode s m r]) (w.log (Call.GetNodeResources m))
    refine ⟨cloudNode s m r :: items, ?_, ?_, ?_, ?_, ?_⟩
    · rw [h1]; simp
    · rw [List.map_cons, h2, cloudNode_name]
    · rw [h3]; rfl
    · rw [h4]; rfl
    · rw [h5]; simp [World.log, isNodeWrite]

theorem CloudNodes_ok (s : NodeController) (b : Behaviour) (w : World) (insts : List String)
    (hok : ∀ w1, b.instancesOk w1 = true)
    (hlist : ∀ w1, b.instanceList s.matchRE w1 = .ok insts)
    (hres : ∀ m w1, ∃ r, b.resources m w1 = .ok r) :
    ∃ items, (CloudNodes s b w).1 = (some { Items := items }, none) ∧
      items.map Node.Name = insts ∧
      (CloudNodes s b w).2.nodes = w.nodes ∧
      (CloudNodes s b w).2.pods = w.pods ∧
      (CloudNodes s b w).2.trace.filter isNodeWrite = w.trace.filter isNodeWrite := by
  unfold CloudNodes
  simp only [Instances, hok, InstancesList, hlist]
  obtain ⟨items, h1, h2, h3, h4, h5⟩ := cloudNodesLoop_ok s b hres insts []
    ((w.log Call.Instances).log (Call.InstancesList s.matchRE))
  refine ⟨items, ?_, h2, ?_, ?_, ?_⟩
  · simpa using h1
  · simpa [World.log] using h3
  · simpa [World.log] using h4
  · simpa [World.log, isNodeWrite] using h5

theorem syncCreateLoop_eq (b : Behaviour) (items : List Node) :
    ∀ (nodeMap : List String) (w : World), (items.map Node.Name).Nodup →
      (syncCreateLoop b items nodeMap w).1 =
        nodeMap.filter (fun k => k ∉ items.map Node.Name) ∧
      (syncCreateLoop b items nodeMap w).2 =
        (items.filter (fun n => n.Name ∉ nodeMap)).foldl (createStep b) w := by
  induction items with
  | nil => intro nodeMap w _; simp [syncCreateLoop]
  | cons n rest ih =>
    intro nodeMap w hnd
    rw [List.map_cons, List.nodup_cons] at hnd
    obtain ⟨hn, hrest⟩ := hnd
    unfold syncCreateLoop
    obtain ⟨h1, h2⟩ := ih (nodeMap.filter (fun k => k ≠ n.Name))
      (if n.Name ∈ nodeMap then w else (NodesCreate b n w).2) hrest
    have hcongr : rest.filter (fun x => x.Name ∉ nodeMap.filter (fun k => k ≠ n.Name)) =
        rest.filter (fun x => x.Name ∉ nodeMap) := by
      apply List.filter_congr
      intro x hx
      have hne : x.Name ≠ n.Name := fun h => hn (h ▸ List.mem_map_of_mem Node.Name hx)
      simp [List.mem_filter, hne]
    refine ⟨?_, ?_⟩
    · rw [h1, List.filter_filter]
      apply List.filter_congr
      intro k _
      rw [Bool.eq_iff_iff]
      simp only [List.map_cons, List.mem_cons, Bool.and_eq_true, decide_eq_true_eq]
      tauto
    · rw [h2, hcongr]
      by_cases hm : n.Name ∈ nodeMap
      · simp [List.filter_cons, hm]
      · simp [List.filter_cons, hm, createStep]

theorem syncDeleteLoop_eq (b : Behaviour) (l : List String) :
    ∀ w : World, syncDeleteLoop b l w = l.foldl (deleteStep b) w := by
  induction l with
  | nil => intro w; rfl
  | cons nodeID rest ih =>
    intro w
    unfold syncDeleteLoop
    rw [ih]
    rfl

theorem foldl_createStep (b : Behaviour) (hcreate : ∀ n w1, b.createErr n w1 = none)
    (l : List Node) :
    ∀ w : World,
      (∀ m, m ∈ (l.foldl (createStep b) w).nodeNames ↔
        m ∈ w.nodeNames ∨ m ∈ l.map Node.Name) ∧
      (l.foldl (createStep b) w).trace.filter isNodeWrite =
        w.trace.filter isNodeWrite ++ l.map (fun n => Call.NodesCreate n.Name) := by
  induction l with
  | nil => intro w; simp
  | cons n rest ih =>
    intro w
    obtain ⟨h1, h2⟩ := ih (createStep b w n)
    obtain ⟨e1, e2⟩ := createStep_effect b w n hcreate
    rw [List.foldl_cons]
    refine ⟨?_, ?_⟩
    · intro m
      rw [h1, e1]
      by_cases hm : n.Name ∈ w.nodeNames
      · rw [if_pos hm]
        simp only [List.map_cons, List.mem_cons]
        constructor
        · rintro (h | h)
          · exact Or.inl h
          · exact Or.inr (Or.inr h)
        · rintro (h | h | h)
          · exact Or.inl h
          · exact Or.inl (h ▸ hm)
          · exact Or.inr h
      · rw [if_neg hm]
        simp only [List.map_cons, List.mem_cons, List.mem_append, List.mem_singleton]
        tauto
    · rw [h2, e2]
      simp

theorem foldl_deleteStep (b : Behaviour) (hdelete : ∀ n w1, b.deleteErr n w1 = none)
    (l : List String) :
    ∀ w : World,
      (∀ m, m ∈ (l.foldl (deleteStep b) w).nodeNames ↔ m ∈ w.nodeNames ∧ m ∉ l) ∧
      (l.foldl (deleteStep b) w).trace.filter isNodeWrite =
        w.trace.filter isNodeWrite ++ l.map Call.NodesDelete := by
  induction l with
  | nil => intro w; simp
  | cons nodeID rest ih =>
    intro w
    obtain ⟨h1, h2⟩ := ih (deleteStep b w nodeID)
    obtain ⟨e1, e2⟩ := deleteStep_effect b w nodeID hdelete
    rw [List.foldl_cons]
    refine ⟨?_, ?_⟩
    · intro m
      rw [h1, e1]
      simp only [List.mem_filter, List.mem_cons, decide_eq_true_eq]
      tauto
    · rw [h2, e2]
      simp

/-- The inventory diff on instance names without repetition: when `CloudNodes`
succeeds and the store calls succeed, `SyncCloud` returns nil; it creates exactly
the instances whose name has no record, in the order listed, then for exactly the
record names that are no instance, in the order the runtime ranges over the map, it
deletes the record and right after runs `deletePods` on that name; no other node
record is created or deleted, and afterwards the names in the store are the
instance names. -/
theorem SyncCloud_diff (s : NodeController) (b : Behaviour) (w : World) (insts : List String)
    (hok : ∀ w1, b.instancesOk w1 = true)
    (hlist : ∀ w1, b.instanceList s.matchRE w1 = .ok insts)
    (hres : ∀ m w1, ∃ r, b.resources m w1 = .ok r)
    (hln : ∀ w1, b.listNodesErr w1 = none)
    (hcreate : ∀ n w1, b.createErr n w1 = none)
    (hdelete : ∀ n w1, b.deleteErr n w1 = none)
    (hdistinct : insts.Nodup) :
    (SyncCloud s b w).1 = none ∧
    (∃ (items : List Node) (order : List String),
      (CloudNodes s b w).1 = (some { Items := items }, none) ∧
      items.map Node.Name = insts ∧
      order.Perm (w.nodeNames.dedup.filter (fun m => m ∉ insts)) ∧
      (SyncCloud s b w).2 =
        order.foldl (deleteStep b)
          ((items.filter (fun n => n.Name ∉ w.nodeNames)).foldl (createStep b)
            (NodesList b (CloudNodes s b w).2).2) ∧
      (SyncCloud s b w).2.trace.filter isNodeWrite =
        w.trace.filter isNodeWrite ++
          (insts.filter (fun m => m ∉ w.nodeNames)).map Call.NodesCreate ++
          order.map Call.NodesDelete) ∧
    (∀ m, m ∈ (SyncCloud s b w).2.nodeNames ↔ m ∈ insts) := by
  obtain ⟨items, hc, hnames, hcn, -, hct⟩ := CloudNodes_ok s b w insts hok hlist hres
  have hl : NodesList b (CloudNodes s b w).2 =
      (.ok { Items := (CloudNodes s b w).2.nodes }, (CloudNodes s b w).2.log Call.NodesList) := by
    unfold NodesList; rw [hln]
  have hnd : (items.map Node.Name).Nodup := by rw [hnames]; exact hdistinct
  have hperm := b.mapOrder_perm (w.nodeNames.dedup.filter (fun m => m ∉ insts))
  have hsync : SyncCloud s b w = (none,
      (b.mapOrder (w.nodeNames.dedup.filter (fun m => m ∉ insts))).foldl (deleteStep b)
        ((items.filter (fun n => n.Name ∉ w.nodeNames)).foldl (createStep b)
          (NodesList b (CloudNodes s b w).2).2)) := by
    unfold SyncCloud
    simp only [hc, hl]
    rw [syncDeleteLoop_eq, (syncCreateLoop_eq b items _ _ hnd).1,
      (syncCreateLoop_eq b items _ _ hnd).2, hcn, hnames]
    have e1 : items.filter (fun n => n.Name ∉ (w.nodes.map Node.Name).dedup) =
        items.filter (fun n => n.Name ∉ w.nodeNames) := by
      apply List.filter_congr
      intro n _
      simp [World.nodeNames, List.mem_dedup]
    rw [e1]
    rfl
  have hw0n : (NodesList b (CloudNodes s b w).2).2.nodeNames = w.nodeNames := by
    rw [hl]; simp [World.log, World.nodeNames, hcn]
  have hw0t : (NodesList b (CloudNodes s b w).2).2.trace.filter isNodeWrite =
      w.trace.filter isNodeWrite := by
    rw [hl]; simp [World.log, isNodeWrite, hct]
  have hmapc : (items.filter (fun n => n.Name ∉ w.nodeNames)).map Node.Name =
      insts.filter (fun m => m ∉ w.nodeNames) := by
    rw [← hnames, List.filter_map]; rfl
  obtain ⟨c1, c2⟩ := foldl_createStep b hcreate (items.filter (fun n => n.Name ∉ w.nodeNames))
    (NodesList b (CloudNodes s b w).2).2
  obtain ⟨d1, d2⟩ := foldl_deleteStep b hdelete
    (b.mapOrder (w.nodeNames.dedup.filter (fun m => m ∉ insts)))
    ((items.filter (fun n => n.Name ∉ w.nodeNames)).foldl (createStep b)
      (NodesList b (CloudNodes s b w).2).2)
  refine ⟨by rw [hsync], ⟨items, _, hc, hnames, hperm, by rw [hsync], ?_⟩, ?_⟩
  · rw [hsync]
    dsimp only
    rw [d2, c2, hw0t, ← hmapc, List.map_map]
    rfl
  · intro m
    rw [hsync]
    dsimp only
    rw [d1, c1, hw0n, hmapc, hperm.mem_iff]
    simp only [List.mem_filter, List.mem_dedup, decide_eq_true_eq]
    tauto

theorem SyncCloud_diff_witness :
    ["b", "c", "d"].Nodup ∧
    (SyncCloud cloudController (calmCloud ["b", "c", "d"])
        (worldOf ["a", "b", "c"] [("p", "a"), ("q", "b")])).2.trace.filter isNodeWrite =
      [Call.NodesCreate "d", Call.NodesDelete "a"] ∧
    (∀ m, m ∈ (SyncCloud cloudController (calmCloud ["b", "c", "d"])
        (worldOf ["a", "b", "c"] [("p", "a"), ("q", "b")])).2.nodeNames ↔
      m ∈ ["b", "c", "d"]) :=
  have h := SyncCloud_diff cloudController (calmCloud ["b", "c", "d"])
    (worldOf ["a", "b", "c"] [("p", "a"), ("q", "b")]) ["b", "c", "d"]
    (fun _ => rfl) (fun _ => rfl) (fun _ _ => ⟨none, rfl⟩) (fun _ => rfl)
    (fun _ _ => rfl) (fun _ _ => rfl) (by decide)
  ⟨by decide, by decide, h.2.2⟩

/-- C4: the store holds the record `b`, the provider lists the instance `b` twice
and every call succeeds; `SyncCloud` calls Create for `b`, a name present on both
sides, and makes no other call that creates or deletes a node record. -/
theorem SyncCloud_creates_present_name :
    "b" ∈ (worldOf ["b"] []).nodeNames ∧ "b" ∈ ["b", "b"] ∧
    (SyncCloud cloudController (calmCloud ["b", "b"]) (worldOf ["b"] [])).2.trace.filter
        isNodeWrite = [Call.NodesCreate "b"] := by
  decide

/-! ## Facts about registration -/

theorem NodesCreate_fst (b : Behaviour) (n : Node) (w : World) :
    (NodesCreate b n w).1 = b.createErr n w := by
  unfold NodesCreate
  cases b.createErr n w <;> rfl

theorem createStep_trace (b : Behaviour) (w : World) (n : Node) :
    (createStep b w n).trace = w.trace ++ [Call.NodesCreate n.Name] := by
  unfold createStep NodesCreate
  cases b.createErr n w <;> rfl

theorem createStep_names_mono (b : Behaviour) (w : World) (n : Node) (m : String)
    (hm : m ∈ w.nodeNames) : m ∈ (createStep b w n).nodeNames := by
  unfold createStep NodesCreate
  cases b.createErr n w with
  | some e => exact hm
  | none =>
    show m ∈ List.map Node.Name (if n.Name ∈ w.nodeNames then w.nodes else w.nodes ++ [n])
    split_ifs
    · exact hm
    · rw [List.map_append]; exact List.mem_append_left _ hm

theorem createStep_names_of_ok (b : Behaviour) (w : World) (n : Node)
    (h : b.createErr n w = none) : n.Name ∈ (createStep b w n).nodeNames := by
  unfold createStep NodesCreate
  rw [h]
  show n.Name ∈ List.map Node.Name (if n.Name ∈ w.nodeNames then w.nodes else w.nodes ++ [n])
  split_ifs with hm
  · exact hm
  · simp

theorem foldl_createStep_trace (b : Behaviour) (l : List Node) :
    ∀ w : World, (l.foldl (createStep b) w).trace =
      w.trace ++ l.map (fun n => Call.NodesCreate n.Name) := by
  induction l with
  | nil => intro w; simp
  | cons n rest ih =>
    intro w
    rw [List.foldl_cons, ih, createStep_trace]
    simp

theorem foldl_createStep_mono (b : Behaviour) (l : List Node) :
    ∀ (w : World) (m : String), m ∈ w.nodeNames → m ∈ (l.foldl (createStep b) w).nodeNames := by
  induction l with
  | nil => intro w m hm; exact hm
  | cons n rest ih =>
    intro w m hm
    rw [List.foldl_cons]
    exact ih _ m (createStep_names_mono b w n m hm)

theorem foldl_createStep_mem (b : Behaviour) (l : List Node) :
    ∀ (w : World) (n : Node), n ∈ l → (∀ w1, b.createErr n w1 = none) →
      n.Name ∈ (l.foldl (createStep b) w).nodeNames := by
  induction l with
  | nil => intro w n hn; cases hn
  | cons x rest ih =>
    intro w n hn hok
    rw [List.foldl_cons]
    rcases List.mem_cons.mp hn with h | h
    · subst h
      exact foldl_createStep_mono b rest _ _ (createStep_names_of_ok b w n (hok w))
    · exact ih _ n h hok

theorem registerPass_cons (b : Behaviour) (total : Nat) (node : Node) (rest : List Node)
    (registered : StringSet) (w : World) :
    registerPass b total (node :: rest) registered w =
      if node.Name ∈ registered then registerPass b total rest registered w
      else
        if (match b.createErr node w with
            | none => StringSet.Insert registered node.Name
            | some e => if IsAlreadyExists e then StringSet.Insert registered node.Name
                else registered).length = total
        then ((match b.createErr node w with
            | none => StringSet.Insert registered node.Name
            | some e => if IsAlreadyExists e then StringSet.Insert registered node.Name
                else registered, true), createStep b w node)
        else registerPass b total rest (match b.createErr node w with
            | none => StringSet.Insert registered node.Name
            | some e => if IsAlreadyExists e then StringSet.Insert registered node.Name
                else registered) (createStep b w node) := by
  rw [registerPass]
  simp only [StringSet.Has, decide_eq_true_eq, NodesCreate_fst, StringSet.Len, createStep]

/-- One pass over a store that rejects the name `X` and accepts every other name,
as long as the pass cannot complete the registration. -/
theorem registerPass_rejecting (b : Behaviour) (total : Nat) (X : String)
    (hrej : ∀ x w1, x.Name = X → ∃ e, b.createErr x w1 = some e ∧ IsAlreadyExists e = false)
    (hacc : ∀ x w1, x.Name ≠ X → b.createErr x w1 = none) (l : List Node) :
    ∀ (reg : StringSet) (w : World), (l.map Node.Name).Nodup → X ∉ reg →
      reg.length + ((l.map Node.Name).filter (fun m => m ∉ reg ∧ m ≠ X)).length < total →
      registerPass b total l reg w =
        ((reg ++ (l.map Node.Name).filter (fun m => m ∉ reg ∧ m ≠ X), false),
          (l.filter (fun n => n.Name ∉ reg)).foldl (createStep b) w) := by
  induction l with
  | nil => intro reg w _ _ _; simp [registerPass]
  | cons n rest ih =>
    intro reg w hnd hX hlen
    rw [List.map_cons, List.nodup_cons] at hnd
    obtain ⟨hn, hrest⟩ := hnd
    rw [registerPass_cons]
    by_cases hmem : n.Name ∈ reg
    · rw [if_pos hmem]
      have hlen1 : reg.length + ((rest.map Node.Name).filter
          (fun m => m ∉ reg ∧ m ≠ X)).length < total := by
        simpa [List.filter_cons, hmem] using hlen
      rw [ih reg w hrest hX hlen1]
      simp [List.filter_cons, hmem]
    · rw [if_neg hmem]
      by_cases hx : n.Name = X
      · obtain ⟨e, he, hae⟩ := hrej n w hx
        have hlen1 : reg.length + ((rest.map Node.Name).filter
            (fun m => m ∉ reg ∧ m ≠ X)).length < total := by
          simpa [List.filter_cons, hmem, hx] using hlen
        have hne : reg.length ≠ total := by omega
        simp only [he, hae, Bool.false_eq_true, if_false, hne]
        rw [ih reg (createStep b w n) hrest hX hlen1]
        simp [List.filter_cons, hmem, hx, hX]
      · have hok := hacc n w hx
        have hins : StringSet.Insert reg n.Name = reg ++ [n.Name] := by
          unfold StringSet.Insert; rw [if_neg hmem]
        have hfilt : (rest.map Node.Name).filter (fun m => m ∉ reg ++ [n.Name] ∧ m ≠ X) =
            (rest.map Node.Name).filter (fun m => m ∉ reg ∧ m ≠ X) := by
          apply List.filter_congr
          intro m hm
          have : m ≠ n.Name := fun h => hn (h ▸ hm)
          simp [this]
        have hfilt2 : rest.filter (fun x => x.Name ∉ reg ++ [n.Name]) =
            rest.filter (fun x => x.Name ∉ reg) := by
          apply List.filter_congr
          intro x hxm
          have : x.Name ≠ n.Name := fun h => hn (h ▸ List.mem_map_of_mem Node.Name hxm)
          simp [this]
        have hlen0 : reg.length + (((rest.map Node.Name).filter
            (fun m => m ∉ reg ∧ m ≠ X)).length + 1) < total := by
          simpa [List.filter_cons, hmem, hx] using hlen
        have hlen1 : (reg ++ [n.Name]).length + ((rest.map Node.Name).filter
            (fun m => m ∉ reg ++ [n.Name] ∧ m ≠ X)).length < total := by
          rw [hfilt, List.length_append, List.length_singleton]; omega
        have hne : (reg ++ [n.Name]).length ≠ total := by
          rw [List.length_append, List.length_singleton]; omega
        have hX1 : X ∉ reg ++ [n.Name] := by
          simp only [List.mem_append, List.mem_singleton, not_or]
          exact ⟨hX, fun h => hx h.symm⟩
        simp only [hok, hins, hne, if_false]
        rw [ih (reg ++ [n.Name]) (createStep b w n) hrest hX1 hlen1, hfilt, hfilt2]
        simp [List.filter_cons, hmem, hx]

theorem canonicalizeName_of_lower (nodes : NodeList)
    (hlow : ∀ x ∈ nodes.Items, ToLower x.Name = x.Name) :
    (canonicalizeName nodes).Items = nodes.Items := by
  unfold canonicalizeName
  show List.map _ nodes.Items = nodes.Items
  conv_rhs => rw [← List.map_id nodes.Items]
  apply List.map_congr_left
  intro x hx
  rw [hlow x hx]
  rfl

theorem filter_unregistered (names : List String) (reg : StringSet) (X : String)
    (hnd : names.Nodup) (hX : X ∈ names) (hXr : X ∉ reg)
    (hreg : ∀ m ∈ names, m ≠ X → m ∈ reg) :
    names.filter (fun m => m ∉ reg) = [X] ∧
      names.filter (fun m => m ∉ reg ∧ m ≠ X) = [] := by
  constructor
  · have h1 : names.filter (fun m => m ∉ reg) = names.filter (fun m => m = X) := by
      apply List.filter_congr
      intro m hm
      by_cases hmx : m = X
      · subst hmx; simp [hXr]
      · simp [hmx, hreg m hm hmx]
    rw [h1, List.filter_eq, List.count_eq_one_of_mem hnd hX]
    rfl
  · rw [List.filter_eq_nil_iff]
    intro m hm
    by_cases hmx : m = X
    · simp [hmx]
    · simp [hreg m hm hmx]

theorem count_retries (c x y : Call) (k : Nat) :
    (List.replicate k [x, y]).flatten.count c =
      k * ((if x = c then 1 else 0) + (if y = c then 1 else 0)) := by
  induction k with
  | zero => simp
  | succ k ih =>
    rw [List.replicate_succ, List.flatten_cons, List.count_append, ih]
    simp only [List.count_cons, List.count_nil, beq_iff_eq]
    ring

/-- The passes after the first one over the rejecting store: each attempts `X`
alone and sleeps, and the loop ends with `ErrRegistration`. -/
theorem registerLoop_rejecting (b : Behaviour) (items : List Node) (d : Duration) (X : String)
    (hrej : ∀ x w1, x.Name = X → ∃ e, b.createErr x w1 = some e ∧ IsAlreadyExists e = false)
    (hacc : ∀ x w1, x.Name ≠ X → b.createErr x w1 = none)
    (hnd : (items.map Node.Name).Nodup) (hX : X ∈ items.map Node.Name)
    (reg : StringSet) (hXr : X ∉ reg)
    (hreg : ∀ m ∈ items.map Node.Name, m ≠ X → m ∈ reg)
    (hlen : reg.length < items.length) (k : Nat) :
    ∀ w : World, (registerLoop b items d k reg w).1 = some Err.ErrRegistration ∧
      (registerLoop b items d k reg w).2.trace =
        w.trace ++ (List.replicate k [Call.NodesCreate X, Call.Sleep d]).flatten ∧
      (∀ m ∈ w.nodeNames, m ∈ (registerLoop b items d k reg w).2.nodeNames) := by
  obtain ⟨hf1, hf2⟩ := filter_unregistered (items.map Node.Name) reg X hnd hX hXr hreg
  have hbound : reg.length +
      ((items.map Node.Name).filter (fun m => m ∉ reg ∧ m ≠ X)).length < items.length := by
    rw [hf2]; simpa using hlen
  have hattempt : (items.filter (fun n => n.Name ∉ reg)).map (fun n => Call.NodesCreate n.Name) =
      [Call.NodesCreate X] := by
    have : (items.filter (fun n => n.Name ∉ reg)).map Node.Name = [X] := by
      rw [← hf1, List.filter_map]; rfl
    rw [show (fun n : Node => Call.NodesCreate n.Name) = Call.NodesCreate ∘ Node.Name from rfl,
      ← List.map_map, this]
    rfl
  induction k with
  | zero =>
    intro w
    have hne : StringSet.Len reg ≠ items.length := Nat.ne_of_lt hlen
    simp [registerLoop, hne]
  | succ k ih =>
    intro w
    rw [registerLoop, registerPass_rejecting b items.length X hrej hacc items reg w hnd hXr hbound]
    simp only [hf2, List.append_nil, Bool.false_eq_true, if_false]
    obtain ⟨h1, h2, h3⟩ := ih (Sleep d ((items.filter (fun n => n.Name ∉ reg)).foldl
      (createStep b) w))
    refine ⟨h1, ?_, ?_⟩
    · rw [h2]
      simp only [Sleep, World.log, foldl_createStep_trace, hattempt, List.replicate_succ,
        List.flatten_cons]
      simp
    · intro m hm
      apply h3
      exact foldl_createStep_mono b _ w m hm

/-- C7: over a node list with pairwise distinct lowercase names that contains `X`,
with `retryCount = n ≥ 1` and a store whose Create always rejects `X` with an error
other than already-exists and accepts every other node, `RegisterNodes` returns
`ErrRegistration` after exactly `n` passes (each ended by a sleep): the first pass
attempts every node in order, each later pass attempts `X` alone; so `X` is
attempted `n` times, every other node is created once, and every other name is in
the store at return. -/
theorem RegisterNodes_rejecting (b : Behaviour) (nodes : NodeList) (n : Int) (d : Duration)
    (w : World) (X : String)
    (hn : 1 ≤ n)
    (hlow : ∀ x ∈ nodes.Items, ToLower x.Name = x.Name)
    (hnd : (nodes.Items.map Node.Name).Nodup)
    (hX : X ∈ nodes.Items.map Node.Name)
    (hrej : ∀ x w1, x.Name = X → ∃ e, b.createErr x w1 = some e ∧ IsAlreadyExists e = false)
    (hacc : ∀ x w1, x.Name ≠ X → b.createErr x w1 = none) :
    (RegisterNodes b nodes n d w).1 = some Err.ErrRegistration ∧
    (∃ tr, (RegisterNodes b nodes n d w).2.trace = w.trace ++ tr ∧
      tr = (nodes.Items.map Node.Name).map Call.NodesCreate ++ [Call.Sleep d] ++
        (List.replicate (n.toNat - 1) [Call.NodesCreate X, Call.Sleep d]).flatten ∧
      (tr.count (Call.Sleep d) : Int) = n ∧
      (tr.count (Call.NodesCreate X) : Int) = n ∧
      (∀ m ∈ nodes.Items.map Node.Name, m ≠ X → tr.count (Call.NodesCreate m) = 1)) ∧
    (∀ m ∈ nodes.Items.map Node.Name, m ≠ X →
      m ∈ (RegisterNodes b nodes n d w).2.nodeNames) := by
  obtain ⟨k, hk⟩ : ∃ k, n.toNat = k + 1 := ⟨n.toNat - 1, by omega⟩
  have hinj : Function.Injective Call.NodesCreate := fun a c h => by injection h
  have hcountX : (nodes.Items.map Node.Name).count X = 1 := List.count_eq_one_of_mem hnd hX
  -- the first pass
  have hbound0 : ([] : StringSet).length + ((nodes.Items.map Node.Name).filter
      (fun m => m ∉ ([] : StringSet) ∧ m ≠ X)).length < nodes.Items.length := by
    have : ((nodes.Items.map Node.Name).filter (fun m => m ∉ ([] : StringSet) ∧ m ≠ X)).length <
        (nodes.Items.map Node.Name).length := by
      rw [List.length_filter_lt_length_iff_exists]
      exact ⟨X, hX, by simp⟩
    simpa using this
  have hpass := registerPass_rejecting b nodes.Items.length X hrej hacc nodes.Items [] w hnd
    (List.not_mem_nil X) hbound0
  have hall : nodes.Items.filter (fun x => x.Name ∉ ([] : StringSet)) = nodes.Items := by
    simp
  rw [hall, List.nil_append] at hpass
  -- the registered set after the first pass
  have hXr : X ∉ (nodes.Items.map Node.Name).filter (fun m => m ∉ ([] : StringSet) ∧ m ≠ X) := by
    simp
  have hreg : ∀ m ∈ nodes.Items.map Node.Name, m ≠ X →
      m ∈ (nodes.Items.map Node.Name).filter (fun m => m ∉ ([] : StringSet) ∧ m ≠ X) := by
    intro m hm hmx
    exact List.mem_filter.mpr ⟨hm, by simp [hmx]⟩
  have hlen : ((nodes.Items.map Node.Name).filter
      (fun m => m ∉ ([] : StringSet) ∧ m ≠ X)).length < nodes.Items.length := by
    simpa using hbound0
  obtain ⟨l1, l2, l3⟩ := registerLoop_rejecting b nodes.Items d X hrej hacc hnd hX _ hXr hreg
    hlen k (Sleep d (nodes.Items.foldl (createStep b) w))
  have hrun : RegisterNodes b nodes n d w =
      registerLoop b nodes.Items d k ((nodes.Items.map Node.Name).filter
        (fun m => m ∉ ([] : StringSet) ∧ m ≠ X)) (Sleep d (nodes.Items.foldl (createStep b) w)) := by
    unfold RegisterNodes
    rw [canonicalizeName_of_lower nodes hlow, hk, registerLoop, hpass]
    simp
  rw [hrun]
  refine ⟨l1, ⟨_, ?_, rfl, ?_, ?_, ?_⟩, ?_⟩
  · rw [l2]
    simp only [Sleep, World.log, foldl_createStep_trace]
    have : n.toNat - 1 = k := by omega
    rw [this]
    simp [List.map_map, Function.comp_def]
  · have hs : ((nodes.Items.map Node.Name).map Call.NodesCreate).count (Call.Sleep d) = 0 := by
      rw [List.count_eq_zero]
      intro hmem
      obtain ⟨m, _, hm⟩ := List.mem_map.mp hmem
      cases hm
    rw [List.count_append, List.count_append, hs, count_retries]
    simp
    omega
  · rw [List.count_append, List.count_append, List.count_map_of_injective _ _ hinj, hcountX,
      count_retries]
    simp
    omega
  · intro m hm hmx
    have hne : Call.NodesCreate X ≠ Call.NodesCreate m := fun h => hmx (hinj h).symm
    rw [List.count_append, List.count_append, List.count_map_of_injective _ _ hinj,
      List.count_eq_one_of_mem hnd hm, count_retries]
    simp [hne]
  · intro m hm hmx
    apply l3
    obtain ⟨x, hx, rfl⟩ := List.mem_map.mp hm
    show x.Name ∈ World.nodeNames (Sleep d _)
    exact foldl_createStep_mem b nodes.Items w x hx (fun w1 => hacc x w1 hmx)

theorem RegisterNodes_rejecting_witness :
    (1 : Int) ≤ 2 ∧
    ((nodeList ["a", "x", "b"]).Items.map Node.Name).Nodup ∧
    (RegisterNodes (rejecting "x") (nodeList ["a", "x", "b"]) 2 5 emptyWorld).1 =
      some Err.ErrRegistration ∧
    (RegisterNodes (rejecting "x") (nodeList ["a", "x", "b"]) 2 5 emptyWorld).2.trace =
      [Call.NodesCreate "a", Call.NodesCreate "x", Call.NodesCreate "b", Call.Sleep 5,
        Call.NodesCreate "x", Call.Sleep 5] ∧
    (∀ m ∈ (nodeList ["a", "x", "b"]).Items.map Node.Name, m ≠ "x" →
      m ∈ (RegisterNodes (rejecting "x") (nodeList ["a", "x", "b"]) 2 5 emptyWorld).2.nodeNames) :=
  have h := RegisterNodes_rejecting (rejecting "x") (nodeList ["a", "x", "b"]) 2 5 emptyWorld "x"
    (by decide) (by decide) (by decide) (by decide)
    (fun x _ hx => ⟨Err.Other "rejected", by simp [rejecting, hx], rfl⟩)
    (fun x _ hx => by simp [rejecting, hx])
  ⟨by decide, by decide, h.1, by decide, h.2.2⟩

theorem registerPass_skip (b : Behaviour) (total : Nat) (l : List Node) :
    ∀ (reg : StringSet) (w : World), (∀ m ∈ l.map Node.Name, m ∈ reg) →
      registerPass b total l reg w = ((reg, false), w) := by
  induction l with
  | nil => intro reg w _; rfl
  | cons n rest ih =>
    intro reg w h
    rw [registerPass_cons, if_pos (h n.Name (by simp))]
    exact ih reg w (fun m hm => h m (by simp at hm ⊢; exact Or.inr hm))

theorem registerLoop_skip (b : Behaviour) (items : List Node) (d : Duration) (reg : StringSet)
    (hall : ∀ m ∈ items.map Node.Name, m ∈ reg) (k : Nat) :
    ∀ w : World,
      (registerLoop b items d k reg w).1 =
        (if reg.length ≠ items.length then some Err.ErrRegistration else none) ∧
      (registerLoop b items d k reg w).2.nodes = w.nodes ∧
      (registerLoop b items d k reg w).2.trace.filter isNodeWrite =
        w.trace.filter isNodeWrite := by
  induction k with
  | zero =>
    intro w
    rw [registerLoop]
    by_cases h : StringSet.Len reg ≠ items.length
    · rw [if_pos h]; exact ⟨(if_pos h).symm, rfl, rfl⟩
    · rw [if_neg h]; exact ⟨(if_neg h).symm, rfl, rfl⟩
  | succ k ih =>
    intro w
    rw [registerLoop, registerPass_skip b items.length items reg w hall]
    simp only [Bool.false_eq_true, if_false]
    obtain ⟨h1, h2, h3⟩ := ih (Sleep d w)
    exact ⟨h1, by rw [h2]; rfl, by rw [h3]; simp [Sleep, World.log, isNodeWrite]⟩

/-- One pass over a store on which every attempted Create registers the node (it
succeeds or answers already-exists): the nodes attempted, in order. -/
theorem registerPass_registering (b : Behaviour) (total : Nat)
    (hreg : ∀ x w1, b.createErr x w1 = none ∨
      ∃ e, b.createErr x w1 = some e ∧ IsAlreadyExists e = true)
    (l : List Node) :
    ∀ (reg : StringSet) (w : World), ∃ att : List Node,
      (registerPass b total l reg w).2 = att.foldl (createStep b) w ∧
      (registerPass b total l reg w).1.1 = reg ++ att.map Node.Name ∧
      (∀ x ∈ att, x ∈ l) ∧ (att.map Node.Name).Nodup ∧ (∀ x ∈ att, x.Name ∉ reg) ∧
      ((registerPass b total l reg w).1.2 = false →
        ∀ m ∈ l.map Node.Name, m ∈ reg ++ att.map Node.Name) ∧
      ((registerPass b total l reg w).1.2 = true →
        (reg ++ att.map Node.Name).length = total) := by
  induction l with
  | nil =>
    intro reg w
    exact ⟨[], by simp [registerPass]⟩
  | cons n rest ih =>
    intro reg w
    rw [registerPass_cons]
    by_cases hmem : n.Name ∈ reg
    · rw [if_pos hmem]
      obtain ⟨att, h1, h2, h3, h4, h5, h6, h7⟩ := ih reg w
      refine ⟨att, h1, h2, fun x hx => List.mem_cons_of_mem _ (h3 x hx), h4, h5, ?_, h7⟩
      intro hf m hm
      rw [List.map_cons] at hm
      rcases List.mem_cons.mp hm with h | h
      · rw [h]; exact List.mem_append_left _ hmem
      · exact h6 hf m h
    · rw [if_neg hmem]
      have hins : (match b.createErr n w with
          | none => StringSet.Insert reg n.Name
          | some e => if IsAlreadyExists e then StringSet.Insert reg n.Name else reg) =
          reg ++ [n.Name] := by
        have hi : StringSet.Insert reg n.Name = reg ++ [n.Name] := by
          unfold StringSet.Insert; rw [if_neg hmem]
        rcases hreg n w with h | ⟨e, h, hae⟩
        · rw [h]; exact hi
        · rw [h]; simp only [hae, if_true]; exact hi
      rw [hins]
      by_cases hfull : (reg ++ [n.Name]).length = total
      · rw [if_pos hfull]
        refine ⟨[n], rfl, rfl, by simp, by simp, by simpa using hmem, by simp, ?_⟩
        intro _; exact hfull
      · rw [if_neg hfull]
        obtain ⟨att, h1, h2, h3, h4, h5, h6, h7⟩ := ih (reg ++ [n.Name]) (createStep b w n)
        have hnot : n.Name ∉ att.map Node.Name := by
          intro hm
          obtain ⟨x, hx, hxn⟩ := List.mem_map.mp hm
          exact h5 x hx (by rw [hxn]; simp)
        refine ⟨n :: att, ?_, ?_, ?_, ?_, ?_, ?_, ?_⟩
        · rw [h1]; rfl
        · rw [h2]; simp
        · intro x hx
          rcases List.mem_cons.mp hx with h | h
          · rw [h]; exact List.mem_cons_self _ _
          · exact List.mem_cons_of_mem _ (h3 x h)
        · rw [List.map_cons, List.nodup_cons]; exact ⟨hnot, h4⟩
        · intro x hx
          rcases List.mem_cons.mp hx with h | h
          · rw [h]; exact hmem
          · exact fun hr => h5 x h (List.mem_append_left _ hr)
        · intro hf m hm
          have := h6 hf
          rw [List.map_cons] at hm
          rcases List.mem_cons.mp hm with h | h
          · rw [h]; simp
          · have := this m h
            simpa [List.append_assoc] using this
        · intro ht
          have := h7 ht
          simpa [List.append_assoc] using this

theorem foldl_createStep_writes (b : Behaviour) (l : List Node) (w : World) :
    (l.foldl (createStep b) w).trace.filter isNodeWrite =
      w.trace.filter isNodeWrite ++ l.map (fun n => Call.NodesCreate n.Name) := by
  rw [foldl_createStep_trace, List.filter_append]
  congr 1
  rw [List.filter_eq_self]
  intro c hc
  obtain ⟨x, _, rfl⟩ := List.mem_map.mp hc
  rfl

theorem createStep_nodes_present (b : Behaviour) (w : World) (x : Node)
    (h : x.Name ∈ w.nodeNames) : (createStep b w x).nodes = w.nodes := by
  unfold createStep NodesCreate
  cases b.createErr x w with
  | some e => rfl
  | none =>
    show (if x.Name ∈ w.nodeNames then w.nodes else w.nodes ++ [x]) = w.nodes
    rw [if_pos h]

theorem foldl_createStep_present (b : Behaviour) (l : List Node) :
    ∀ w : World, (∀ x ∈ l, x.Name ∈ w.nodeNames) →
      (l.foldl (createStep b) w).nodes = w.nodes := by
  induction l with
  | nil => intro w _; rfl
  | cons x rest ih =>
    intro w h
    have hx := createStep_nodes_present b w x (h x (List.mem_cons_self _ _))
    rw [List.foldl_cons, ih, hx]
    intro y hy
    unfold World.nodeNames
    rw [hx]
    exact h y (List.mem_cons_of_mem _ hy)

theorem createStep_names (b : Behaviour) (w : World) (x : Node)
    (habs : ∀ y w1, y.Name ∉ w1.nodeNames → b.createErr y w1 = none) :
    (createStep b w x).nodeNames =
      (if x.Name ∈ w.nodeNames then w.nodeNames else w.nodeNames ++ [x.Name]) := by
  by_cases h : x.Name ∈ w.nodeNames
  · rw [if_pos h]
    unfold World.nodeNames
    rw [createStep_nodes_present b w x h]
  · rw [if_neg h]
    unfold createStep NodesCreate
    rw [habs x w h]
    show List.map Node.Name (if x.Name ∈ w.nodeNames then w.nodes else w.nodes ++ [x]) = _
    rw [if_neg h]
    simp [World.nodeNames]

theorem foldl_createStep_names (b : Behaviour)
    (habs : ∀ y w1, y.Name ∉ w1.nodeNames → b.createErr y w1 = none) (l : List Node) :
    ∀ w : World,
      (∀ m, m ∈ (l.foldl (createStep b) w).nodeNames ↔
        m ∈ w.nodeNames ∨ m ∈ l.map Node.Name) ∧
      (w.nodeNames.Nodup → (l.foldl (createStep b) w).nodeNames.Nodup) := by
  induction l with
  | nil => intro w; simp
  | cons x rest ih =>
    intro w
    obtain ⟨h1, h2⟩ := ih (createStep b w x)
    have e := createStep_names b w x habs
    rw [List.foldl_cons]
    refine ⟨?_, ?_⟩
    · intro m
      rw [h1, e]
      by_cases hm : x.Name ∈ w.nodeNames
      · rw [if_pos hm]
        simp only [List.map_cons, List.mem_cons]
        constructor
        · rintro (h | h)
          · exact Or.inl h
          · exact Or.inr (Or.inr h)
        · rintro (h | h | h)
          · exact Or.inl h
          · exact Or.inl (h ▸ hm)
          · exact Or.inr h
      · rw [if_neg hm]
        simp only [List.map_cons, List.mem_cons, List.mem_append, List.mem_singleton]
        tauto
    · intro hnd
      apply h2
      rw [e]
      by_cases hm : x.Name ∈ w.nodeNames
      · rw [if_pos hm]; exact hnd
      · rw [if_neg hm]
        rw [List.nodup_append]
        refine ⟨hnd, List.nodup_singleton _, ?_⟩
        intro a ha hb
        rw [List.mem_singleton] at hb
        exact hm (hb ▸ ha)

/-- The whole retry loop over a store on which every attempted Create registers the
node: the nodes attempted are one node for each name of the list. -/
theorem registerLoop_registering (b : Behaviour) (items : List Node) (d : Duration)
    (hreg : ∀ x w1, b.createErr x w1 = none ∨
      ∃ e, b.createErr x w1 = some e ∧ IsAlreadyExists e = true)
    (k : Nat) (w : World) :
    ∃ att : List Node, (∀ x ∈ att, x ∈ items) ∧ (att.map Node.Name).Nodup ∧
      (∀ m ∈ items.map Node.Name, m ∈ att.map Node.Name) ∧
      (registerLoop b items d (k + 1) [] w).1 =
        (if att.length ≠ items.length then some Err.ErrRegistration else none) ∧
      (registerLoop b items d (k + 1) [] w).2.nodes = (att.foldl (createStep b) w).nodes ∧
      (registerLoop b items d (k + 1) [] w).2.trace.filter isNodeWrite =
        w.trace.filter isNodeWrite ++ att.map (fun x => Call.NodesCreate x.Name) := by
  obtain ⟨att, h1, h2, h3, h4, -, h6, h7⟩ :=
    registerPass_registering b items.length hreg items [] w
  rw [List.nil_append] at h2 h6 h7
  have hsub : att.map Node.Name ⊆ items.map Node.Name := by
    intro m hm
    obtain ⟨x, hx, rfl⟩ := List.mem_map.mp hm
    exact List.mem_map_of_mem _ (h3 x hx)
  rw [registerLoop]
  cases hflag : (registerPass b items.length items [] w).1.2 with
  | true =>
    have hlen := h7 hflag
    have hperm : List.Perm (att.map Node.Name) (items.map Node.Name) :=
      (List.subperm_of_subset h4 hsub).perm_of_length_le (by rw [hlen]; simp)
    refine ⟨att, h3, h4, fun m hm => hperm.symm.subset hm, ?_, ?_, ?_⟩
    · have : att.length = items.length := by simpa using hlen
      simp [this]
    · simp [h1]
    · simp [h1, foldl_createStep_writes]
  | false =>
    have hall := h6 hflag
    simp only [Bool.false_eq_true, if_false]
    obtain ⟨s1, s2, s3⟩ := registerLoop_skip b items d
      (registerPass b items.length items [] w).1.1 (by rw [h2]; exact hall) k
      (Sleep d (registerPass b items.length items [] w).2)
    refine ⟨att, h3, h4, hall, ?_, ?_, ?_⟩
    · rw [s1, h2]; simp
    · rw [s2, h1]; rfl
    · rw [s3, h1]
      simp [Sleep, World.log, isNodeWrite, foldl_createStep_writes]

theorem canonicalizeName_names (nodes : NodeList) :
    (canonicalizeName nodes).Items.map Node.Name =
      nodes.Items.map (fun x => ToLower x.Name) := by
  unfold canonicalizeName
  simp [List.map_map, Function.comp_def]

/-- One run of `RegisterNodes` over a store that creates absent names and answers
already-exists for present ones. -/
theorem RegisterNodes_conflicting (b : Behaviour) (nodes : NodeList) (n : Int) (d : Duration)
    (w : World) (hn : 1 ≤ n)
    (hlow : ∀ x ∈ nodes.Items, ToLower x.Name = x.Name)
    (hnd : (nodes.Items.map Node.Name).Nodup)
    (habs : ∀ x w1, x.Name ∉ w1.nodeNames → b.createErr x w1 = none)
    (hpres : ∀ x w1, x.Name ∈ w1.nodeNames →
      ∃ e, b.createErr x w1 = some e ∧ IsAlreadyExists e = true) :
    (RegisterNodes b nodes n d w).1 = none ∧
    (∀ m, m ∈ (RegisterNodes b nodes n d w).2.nodeNames ↔
      m ∈ w.nodeNames ∨ m ∈ nodes.Items.map Node.Name) ∧
    ((∀ m ∈ nodes.Items.map Node.Name, m ∈ w.nodeNames) →
      (RegisterNodes b nodes n d w).2.nodes = w.nodes) := by
  obtain ⟨k, hk⟩ : ∃ k, n.toNat = k + 1 := ⟨n.toNat - 1, by omega⟩
  have hreg : ∀ x w1, b.createErr x w1 = none ∨
      ∃ e, b.createErr x w1 = some e ∧ IsAlreadyExists e = true := by
    intro x w1
    by_cases h : x.Name ∈ w1.nodeNames
    · exact Or.inr (hpres x w1 h)
    · exact Or.inl (habs x w1 h)
  obtain ⟨att, a1, a2, a3, a4, a5, -⟩ := registerLoop_registering b nodes.Items d hreg k w
  have hrun : RegisterNodes b nodes n d w = registerLoop b nodes.Items d (k + 1) [] w := by
    unfold RegisterNodes
    rw [canonicalizeName_of_lower nodes hlow, hk]
  have hsub : ∀ m ∈ att.map Node.Name, m ∈ nodes.Items.map Node.Name := by
    intro m hm
    obtain ⟨x, hx, rfl⟩ := List.mem_map.mp hm
    exact List.mem_map_of_mem _ (a1 x hx)
  have hperm : List.Perm (att.map Node.Name) (nodes.Items.map Node.Name) :=
    (List.perm_ext_iff_of_nodup a2 hnd).mpr (fun m => ⟨hsub m, a3 m⟩)
  have hlen : att.length = nodes.Items.length := by simpa using hperm.length_eq
  have hnames : (RegisterNodes b nodes n d w).2.nodeNames =
      (att.foldl (createStep b) w).nodeNames := by
    unfold World.nodeNames
    rw [hrun, a5]
  refine ⟨?_, ?_, ?_⟩
  · rw [hrun, a4]; simp [hlen]
  · intro m
    rw [hnames, (foldl_createStep_names b habs att w).1 m]
    constructor
    · rintro (h | h)
      · exact Or.inl h
      · exact Or.inr (hsub m h)
    · rintro (h | h)
      · exact Or.inl h
      · exact Or.inr (a3 m h)
  · intro hall
    rw [hrun, a5]
    exact foldl_createStep_present b att w
      (fun x hx => hall x.Name (List.mem_map_of_mem _ (a1 x hx)))

/-- C8: over a node list with pairwise distinct lowercase names and `retryCount ≥ 1`,
on a store whose Create succeeds for an absent name and fails with already-exists
for a present one, `RegisterNodes` run twice in succession returns nil both times,
and the second run leaves the store exactly as the first run left it; after the
first run the names in the store are the earlier ones and those of the list. -/
theorem RegisterNodes_twice (b : Behaviour) (nodes : NodeList) (n : Int) (d : Duration)
    (w : World) (hn : 1 ≤ n)
    (hlow : ∀ x ∈ nodes.Items, ToLower x.Name = x.Name)
    (hnd : (nodes.Items.map Node.Name).Nodup)
    (habs : ∀ x w1, x.Name ∉ w1.nodeNames → b.createErr x w1 = none)
    (hpres : ∀ x w1, x.Name ∈ w1.nodeNames →
      ∃ e, b.createErr x w1 = some e ∧ IsAlreadyExists e = true) :
    (RegisterNodes b nodes n d w).1 = none ∧
    (RegisterNodes b nodes n d (RegisterNodes b nodes n d w).2).1 = none ∧
    (RegisterNodes b nodes n d (RegisterNodes b nodes n d w).2).2.nodes =
      (RegisterNodes b nodes n d w).2.nodes ∧
    (∀ m, m ∈ (RegisterNodes b nodes n d w).2.nodeNames ↔
      m ∈ w.nodeNames ∨ m ∈ nodes.Items.map Node.Name) := by
  obtain ⟨r1, r2, -⟩ := RegisterNodes_conflicting b nodes n d w hn hlow hnd habs hpres
  obtain ⟨s1, -, s3⟩ := RegisterNodes_conflicting b nodes n d (RegisterNodes b nodes n d w).2
    hn hlow hnd habs hpres
  exact ⟨r1, s1, s3 (fun m hm => (r2 m).mpr (Or.inr hm)), r2⟩

theorem RegisterNodes_twice_witness :
    (1 : Int) ≤ 3 ∧
    ((nodeList ["a", "b"]).Items.map Node.Name).Nodup ∧
    (RegisterNodes conflicting (nodeList ["a", "b"]) 3 5 (worldOf ["b", "c"] [])).1 = none ∧
    (RegisterNodes conflicting (nodeList ["a", "b"]) 3 5
      (RegisterNodes conflicting (nodeList ["a", "b"]) 3 5 (worldOf ["b", "c"] [])).2).1 = none ∧
    (RegisterNodes conflicting (nodeList ["a", "b"]) 3 5
      (RegisterNodes conflicting (nodeList ["a", "b"]) 3 5 (worldOf ["b", "c"] [])).2).2.nodes =
      (RegisterNodes conflicting (nodeList ["a", "b"]) 3 5 (worldOf ["b", "c"] [])).2.nodes ∧
    (RegisterNodes conflicting (nodeList ["a", "b"]) 3 5 (worldOf ["b", "c"] [])).2.nodeNames =
      ["b", "c", "a"] :=
  have h := RegisterNodes_twice conflicting (nodeList ["a", "b"]) 3 5 (worldOf ["b", "c"] [])
    (by decide) (by decide) (by decide)
    (fun x w1 hx => by simp [conflicting, calm, hx])
    (fun x w1 hx => ⟨Err.AlreadyExists x.Name, by simp [conflicting, calm, hx], rfl⟩)
  ⟨by decide, by decide, h.1, h.2.1, h.2.2.1, by decide⟩

/-- C5, as stated, fails: the store holds a pod `p` on node `n` and another pod `p`
on node `m`, listing and every deletion succeed; `deletePods` on `n` deletes by the
name `p`, and afterwards the pod on `m` is no longer in the store. -/
theorem deletePods_removes_other_pod :
    calm.listPodsErr (worldOf [] [("p", "n"), ("p", "m")]) = none ∧
    ({ Name := "p", Status := { Host := "m" } } : Pod) ∈
      (worldOf [] [("p", "n"), ("p", "m")]).pods ∧
    (deletePods calm "n" (worldOf [] [("p", "n"), ("p", "m")])).1 = none ∧
    (deletePods calm "n" (worldOf [] [("p", "n"), ("p", "m")])).2.trace =
      [Call.PodsList, Call.PodsDelete "p"] ∧
    ({ Name := "p", Status := { Host := "m" } } : Pod) ∉
      (deletePods calm "n" (worldOf [] [("p", "n"), ("p", "m")])).2.pods := by
  decide

theorem deletePods_frame_witness :
    calm.listPodsErr (worldOf ["a", "b"] [("p", "a"), ("q", "b"), ("r", "a")]) = none ∧
    ((worldOf ["a", "b"] [("p", "a"), ("q", "b"), ("r", "a")]).pods.map Pod.Name).Nodup ∧
    (deletePods calm "a" (worldOf ["a", "b"] [("p", "a"), ("q", "b"), ("r", "a")])).1 = none ∧
    (deletePods calm "a" (worldOf ["a", "b"] [("p", "a"), ("q", "b"), ("r", "a")])).2.pods =
      [{ Name := "q", Status := { Host := "b" } }] :=
  have h := deletePods_frame calm "a" (worldOf ["a", "b"] [("p", "a"), ("q", "b"), ("r", "a")])
    rfl (fun _ _ => rfl) (by decide)
  ⟨rfl, by decide, h.1, h.2.1.trans (by decide)⟩

theorem registerPass_calls (b : Behaviour) (total : Nat) (l : List Node) :
    ∀ (reg : StringSet) (w : World), ∀ c ∈ (registerPass b total l reg w).2.trace,
      c ∈ w.trace ∨ ∃ x ∈ l, c = Call.NodesCreate x.Name := by
  induction l with
  | nil => intro reg w c hc; exact Or.inl hc
  | cons n rest ih =>
    intro reg w c hc
    rw [registerPass_cons] at hc
    have hstep : ∀ c ∈ (createStep b w n).trace,
        c ∈ w.trace ∨ ∃ x ∈ n :: rest, c = Call.NodesCreate x.Name := by
      intro c hc
      rw [createStep_trace] at hc
      rcases List.mem_append.mp hc with h | h
      · exact Or.inl h
      · exact Or.inr ⟨n, List.mem_cons_self _ _, List.mem_singleton.mp h⟩
    have hrest : ∀ (reg1 : StringSet) (w1 : World),
        (∀ c ∈ w1.trace, c ∈ w.trace ∨ ∃ x ∈ n :: rest, c = Call.NodesCreate x.Name) →
        ∀ c ∈ (registerPass b total rest reg1 w1).2.trace,
          c ∈ w.trace ∨ ∃ x ∈ n :: rest, c = Call.NodesCreate x.Name := by
      intro reg1 w1 hw1 c hc
      rcases ih reg1 w1 c hc with h | ⟨x, hx, h⟩
      · exact hw1 c h
      · exact Or.inr ⟨x, List.mem_cons_of_mem _ hx, h⟩
    split_ifs at hc
    · exact hrest reg w (fun c h => Or.inl h) c hc
    · exact hstep c hc
    · exact hrest _ _ hstep c hc

theorem registerLoop_calls (b : Behaviour) (items : List Node) (d : Duration) (k : Nat) :
    ∀ (reg : StringSet) (w : World), ∀ c ∈ (registerLoop b items d k reg w).2.trace,
      c ∈ w.trace ∨ c = Call.Sleep d ∨ ∃ x ∈ items, c = Call.NodesCreate x.Name := by
  induction k with
  | zero =>
    intro reg w c hc
    rw [registerLoop] at hc
    split_ifs at hc <;> exact Or.inl hc
  | succ k ih =>
    intro reg w c hc
    rw [registerLoop] at hc
    have hpass := registerPass_calls b items.length items reg w
    split_ifs at hc
    · rcases hpass c hc with h | h
      · exact Or.inl h
      · exact Or.inr (Or.inr h)
    · rcases ih _ _ c hc with h | h | h
      · simp only [Sleep, World.log] at h
        rcases List.mem_append.mp h with h | h
        · rcases hpass c h with h | h
          · exact Or.inl h
          · exact Or.inr (Or.inr h)
        · exact Or.inr (Or.inl (List.mem_singleton.mp h))
      · exact Or.inr (Or.inl h)
      · exact Or.inr (Or.inr h)

/-- C9: every name `RegisterNodes` passes to Create is the lowercase form of an
input name, whatever the store answers; and with an accepting store and
`retryCount ≥ 1` each lowercase name is created exactly once and is in the store at
return, the names in the store being the earlier ones and these lowercase names,
without repetition when there was none before. -/
theorem RegisterNodes_lowercase (b : Behaviour) (nodes : NodeList) (n : Int) (d : Duration)
    (w : World) :
    (∀ m, Call.NodesCreate m ∈ (RegisterNodes b nodes n d w).2.trace →
      Call.NodesCreate m ∈ w.trace ∨ m ∈ nodes.Items.map (fun x => ToLower x.Name)) ∧
    ((∀ x w1, b.createErr x w1 = none) → 1 ≤ n →
      (∀ m ∈ nodes.Items.map (fun x => ToLower x.Name),
        ((RegisterNodes b nodes n d w).2.trace.filter isNodeWrite).count (Call.NodesCreate m) =
          (w.trace.filter isNodeWrite).count (Call.NodesCreate m) + 1 ∧
        m ∈ (RegisterNodes b nodes n d w).2.nodeNames) ∧
      (∀ m, m ∈ (RegisterNodes b nodes n d w).2.nodeNames ↔
        m ∈ w.nodeNames ∨ m ∈ nodes.Items.map (fun x => ToLower x.Name)) ∧
      (w.nodeNames.Nodup → (RegisterNodes b nodes n d w).2.nodeNames.Nodup)) := by
  have hinj : Function.Injective Call.NodesCreate := fun a c h => by injection h
  refine ⟨?_, ?_⟩
  · intro m hm
    unfold RegisterNodes at hm
    rcases registerLoop_calls b _ d _ _ w _ hm with h | h | ⟨x, hx, h⟩
    · exact Or.inl h
    · cases h
    · right
      rw [← canonicalizeName_names]
      rw [hinj h]
      exact List.mem_map_of_mem _ hx
  · intro hcreate hn
    obtain ⟨k, hk⟩ : ∃ k, n.toNat = k + 1 := ⟨n.toNat - 1, by omega⟩
    obtain ⟨att, a1, a2, a3, -, a5, a6⟩ := registerLoop_registering b
      (canonicalizeName nodes).Items d (fun x w1 => Or.inl (hcreate x w1)) k w
    rw [canonicalizeName_names] at a3
    have hrun : RegisterNodes b nodes n d w =
        registerLoop b (canonicalizeName nodes).Items d (k + 1) [] w := by
      unfold RegisterNodes; rw [hk]
    have hsub : ∀ m ∈ att.map Node.Name, m ∈ nodes.Items.map (fun x => ToLower x.Name) := by
      intro m hm
      obtain ⟨x, hx, rfl⟩ := List.mem_map.mp hm
      rw [← canonicalizeName_names]
      exact List.mem_map_of_mem _ (a1 x hx)
    have hnames : (RegisterNodes b nodes n d w).2.nodeNames =
        (att.foldl (createStep b) w).nodeNames := by
      unfold World.nodeNames
      rw [hrun, a5]
    obtain ⟨f1, f2⟩ := foldl_createStep_names b (fun y w1 _ => hcreate y w1) att w
    have hmem : ∀ m, m ∈ (RegisterNodes b nodes n d w).2.nodeNames ↔
        m ∈ w.nodeNames ∨ m ∈ nodes.Items.map (fun x => ToLower x.Name) := by
      intro m
      rw [hnames, f1 m]
      constructor
      · rintro (h | h)
        · exact Or.inl h
        · exact Or.inr (hsub m h)
      · rintro (h | h)
        · exact Or.inl h
        · exact Or.inr (a3 m h)
    refine ⟨?_, hmem, ?_⟩
    · intro m hm
      refine ⟨?_, (hmem m).mpr (Or.inr hm)⟩
      rw [hrun, a6, List.count_append]
      congr 1
      rw [show (fun x : Node => Call.NodesCreate x.Name) = Call.NodesCreate ∘ Node.Name from rfl,
        ← List.map_map, List.count_map_of_injective _ _ hinj]
      exact List.count_eq_one_of_mem a2 (a3 m hm)
    · intro hnd
      rw [hnames]
      exact f2 hnd

theorem RegisterNodes_lowercase_witness :
    (1 : Int) ≤ 1 ∧
    (nodeList ["Node-A", "node-a"]).Items.map (fun x => ToLower x.Name) = ["node-a", "node-a"] ∧
    (RegisterNodes calm (nodeList ["Node-A", "node-a"]) 1 0 emptyWorld).2.nodeNames = ["node-a"] ∧
    (RegisterNodes calm (nodeList ["Node-A", "node-a"]) 1 0 emptyWorld).2.trace =
      [Call.NodesCreate "node-a", Call.Sleep 0] ∧
    (∀ m, m ∈ (RegisterNodes calm (nodeList ["Node-A", "node-a"]) 1 0 emptyWorld).2.nodeNames ↔
      m ∈ emptyWorld.nodeNames ∨
        m ∈ (nodeList ["Node-A", "node-a"]).Items.map (fun x => ToLower x.Name)) :=
  have h := (RegisterNodes_lowercase calm (nodeList ["Node-A", "node-a"]) 1 0 emptyWorld).2
    (fun _ _ => rfl) (by decide)
  ⟨by decide, by decide, by decide, by decide, h.2.1⟩

/-! ## Facts about errors of the collaborators -/

theorem deletePodsLoop_trace (b : Behaviour) (nodeID : String) (l : List Pod) :
    ∀ w : World, (deletePodsLoop b nodeID l w).trace =
      w.trace ++ (l.filter (fun p => p.Status.Host = nodeID)).map
        (fun p => Call.PodsDelete p.Name) := by
  induction l with
  | nil => intro w; simp [deletePodsLoop]
  | cons q rest ih =>
    intro w
    unfold deletePodsLoop
    by_cases hh : q.Status.Host ≠ nodeID
    · rw [if_pos hh, ih]
      have hq : ¬ q.Status.Host = nodeID := hh
      simp [List.filter_cons, hq]
    · rw [if_neg hh, ih]
      have hq : q.Status.Host = nodeID := not_not.mp hh
      have ht : (PodsDelete b q.Name w).2.trace = w.trace ++ [Call.PodsDelete q.Name] := by
        unfold PodsDelete World.log
        cases b.deletePodErr q.Name w <;> rfl
      rw [ht]
      simp [List.filter_cons, hq]

/-- C14: whichever deletions fail, when the listing succeeds `deletePods` returns nil
after attempting, in the order listed, one deletion for every listed pod whose host
is the given node, and no other; it returns an error exactly when the listing
fails, and then the listing is the only call made. -/
theorem deletePods_attempts (b : Behaviour) (nodeID : String) (w : World) :
    (b.listPodsErr w = none →
      (deletePods b nodeID w).1 = none ∧
      (deletePods b nodeID w).2.trace = w.trace ++ [Call.PodsList] ++
        (w.pods.filter (fun p => p.Status.Host = nodeID)).map
          (fun p => Call.PodsDelete p.Name)) ∧
    (∀ e, b.listPodsErr w = some e →
      deletePods b nodeID w = (some e, w.log Call.PodsList)) ∧
    ((deletePods b nodeID w).1 ≠ none ↔ b.listPodsErr w ≠ none) := by
  refine ⟨?_, ?_, ?_⟩
  · intro h
    unfold deletePods PodsList
    rw [h]
    refine ⟨rfl, ?_⟩
    show (deletePodsLoop b nodeID w.pods (w.log Call.PodsList)).trace = _
    rw [deletePodsLoop_trace]
    rfl
  · intro e h
    unfold deletePods PodsList
    rw [h]
  · unfold deletePods PodsList
    cases h : b.listPodsErr w <;> simp

/-- C12: when the provider has no Instances capability, or its List call fails,
`SyncCloud` returns that error having called the provider only: the store is as
before and no store call is made. -/
theorem SyncCloud_aborts (s : NodeController) (b : Behaviour) (w : World) :
    (b.instancesOk w = false →
      SyncCloud s b w = (some Err.ErrCloudInstance, w.log Call.Instances)) ∧
    (∀ e, b.instancesOk w = true →
      b.instanceList s.matchRE (w.log Call.Instances) = .error e →
      SyncCloud s b w =
        (some e, (w.log Call.Instances).log (Call.InstancesList s.matchRE))) ∧
    ((b.instancesOk w = false ∨
        ∃ e, b.instanceList s.matchRE (w.log Call.Instances) = .error e) →
      (SyncCloud s b w).1 ≠ none ∧
      (SyncCloud s b w).2.nodes = w.nodes ∧ (SyncCloud s b w).2.pods = w.pods ∧
      ∀ c ∈ (SyncCloud s b w).2.trace, c ∈ w.trace ∨ c = Call.Instances ∨
        c = Call.InstancesList s.matchRE) := by
  have h1 : b.instancesOk w = false →
      SyncCloud s b w = (some Err.ErrCloudInstance, w.log Call.Instances) := by
    intro h
    unfold SyncCloud CloudNodes Instances
    simp [h]
  have h2 : ∀ e, b.instancesOk w = true →
      b.instanceList s.matchRE (w.log Call.Instances) = .error e →
      SyncCloud s b w =
        (some e, (w.log Call.Instances).log (Call.InstancesList s.matchRE)) := by
    intro e hok h
    unfold SyncCloud CloudNodes Instances InstancesList
    simp [hok, h]
  refine ⟨h1, h2, ?_⟩
  intro h
  by_cases hok : b.instancesOk w = false
  · rw [h1 hok]
    refine ⟨by simp, rfl, rfl, ?_⟩
    intro c hc
    simp only [World.log, List.mem_append, List.mem_singleton] at hc
    tauto
  · have hok1 : b.instancesOk w = true := by simpa using hok
    rcases h with h | ⟨e, h⟩
    · exact absurd h hok
    · rw [h2 e hok1 h]
      refine ⟨by simp, rfl, rfl, ?_⟩
      intro c hc
      simp only [World.log, List.mem_append, List.mem_singleton] at hc
      tauto

theorem cloudNodesLoop_error (s : NodeController) (b : Behaviour) (m : String)
    (post : List String) (e : Err) (hm : ∀ w1, b.resources m w1 = .error e)
    (pre : List String) :
    ∀ (acc : List Node) (w : World), (∀ x ∈ pre, ∀ w1, ∃ r, b.resources x w1 = .ok r) →
      (cloudNodesLoop s b (pre ++ m :: post) acc w).1 = (none, some e) ∧
      (cloudNodesLoop s b (pre ++ m :: post) acc w).2.trace =
        w.trace ++ (pre ++ [m]).map Call.GetNodeResources ∧
      (cloudNodesLoop s b (pre ++ m :: post) acc w).2.nodes = w.nodes ∧
      (cloudNodesLoop s b (pre ++ m :: post) acc w).2.pods = w.pods := by
  induction pre with
  | nil =>
    intro acc w _
    rw [List.nil_append, cloudNodesLoop]
    simp [GetNodeResources, hm, World.log]
  | cons x rest ih =>
    intro acc w hpre
    obtain ⟨r, hr⟩ := hpre x (List.mem_cons_self _ _) w
    rw [List.cons_append, cloudNodesLoop]
    simp only [GetNodeResources, hr]
    obtain ⟨h1, h2, h3, h4⟩ := ih (acc ++ [cloudNode s x r]) (w.log (Call.GetNodeResources x))
      (fun y hy => hpre y (List.mem_cons_of_mem _ hy))
    refine ⟨h1, ?_, ?_, ?_⟩
    · rw [h2]; simp [World.log]
    · rw [h3]; rfl
    · rw [h4]; rfl

/-- C11, as stated, fails: the provider lists `a`, `b`, `c` and the capacity query
fails for `b`; `CloudNodes` returns an error, and asks nothing about `c`. -/
theorem CloudNodes_fails_on_resources :
    (brokenResources ["a", "b", "c"] "b").instanceList cloudController.matchRE emptyWorld =
      .ok ["a", "b", "c"] ∧
    (CloudNodes cloudController (brokenResources ["a", "b", "c"] "b") emptyWorld).1.2 =
      some (Err.Other "no resources") ∧
    (CloudNodes cloudController (brokenResources ["a", "b", "c"] "b") emptyWorld).2.trace =
      [Call.Instances, Call.InstancesList ".*", Call.GetNodeResources "a",
        Call.GetNodeResources "b"] :=
  ⟨rfl, by decide, by decide⟩

/-- C11, amended: when the provider enumerates its instances, a capacity query that
fails is fatal for the call: `CloudNodes` queries the instances in order, stops at
the first failing query and returns its error, the store untouched; it returns
without error one node record for every enumerated instance when every capacity
query succeeds. -/
theorem CloudNodes_resources (s : NodeController) (b : Behaviour) (w : World)
    (insts : List String)
    (hok : ∀ w1, b.instancesOk w1 = true)
    (hlist : ∀ w1, b.instanceList s.matchRE w1 = .ok insts) :
    (∀ pre m post e, insts = pre ++ m :: post →
      (∀ x ∈ pre, ∀ w1, ∃ r, b.resources x w1 = .ok r) →
      (∀ w1, b.resources m w1 = .error e) →
      (CloudNodes s b w).1.2 = some e ∧
      (CloudNodes s b w).2.trace = w.trace ++
        [Call.Instances, Call.InstancesList s.matchRE] ++
        (pre ++ [m]).map Call.GetNodeResources ∧
      (CloudNodes s b w).2.nodes = w.nodes ∧ (CloudNodes s b w).2.pods = w.pods) ∧
    ((∀ m w1, ∃ r, b.resources m w1 = .ok r) →
      ∃ items, (CloudNodes s b w).1 = (some { Items := items }, none) ∧
        items.map Node.Name = insts) := by
  refine ⟨?_, ?_⟩
  · intro pre m post e hinsts hpre hm
    obtain ⟨h1, h2, h3, h4⟩ := cloudNodesLoop_error s b m post e hm pre []
      ((w.log Call.Instances).log (Call.InstancesList s.matchRE)) hpre
    have hrun : CloudNodes s b w = cloudNodesLoop s b (pre ++ m :: post) []
        ((w.log Call.Instances).log (Call.InstancesList s.matchRE)) := by
      unfold CloudNodes
      simp only [Instances, hok, InstancesList, hlist, hinsts]
      simp
    rw [hrun]
    refine ⟨by rw [h1], ?_, ?_, ?_⟩
    · rw [h2]; simp [World.log]
    · rw [h3]; rfl
    · rw [h4]; rfl
  · intro hres
    obtain ⟨items, h1, h2, -⟩ := CloudNodes_ok s b w insts hok hlist hres
    exact ⟨items, h1, h2⟩

theorem CloudNodes_resources_witness :
    (∀ w1, (brokenResources ["a", "b", "c"] "b").instancesOk w1 = true) ∧
    (∀ w1, (brokenResources ["a", "b", "c"] "b").instanceList cloudController.matchRE w1 =
      .ok ["a", "b", "c"]) ∧
    (CloudNodes cloudController (brokenResources ["a", "b", "c"] "b") emptyWorld).1.2 =
      some (Err.Other "no resources") ∧
    (CloudNodes cloudController (brokenResources ["a", "b", "c"] "b") emptyWorld).2.nodes =
      emptyWorld.nodes :=
  have h := (CloudNodes_resources cloudController (brokenResources ["a", "b", "c"] "b")
    emptyWorld ["a", "b", "c"] (fun _ => rfl) (fun _ => rfl)).1 ["a"] "b" ["c"]
    (Err.Other "no resources") rfl
    (fun x hx w1 => ⟨none, by
      have : x = "a" := by simpa using hx
      subst this
      rfl⟩)
    (fun _ => rfl)
  ⟨fun _ => rfl, fun _ => rfl, h.1, h.2.2.1⟩

/-- C15: the provider lists `a` and the capacity query for `a` fails; `CloudNodes`
returns the error together with a nil node list, not an empty one. -/
theorem CloudNodes_returns_nil :
    CloudNodes cloudController (brokenResources ["a"] "a") emptyWorld =
      ((none, some (Err.Other "no resources")),
        { nodes := [], pods := [], ticks := 0,
          trace := [Call.Instances, Call.InstancesList ".*", Call.GetNodeResources "a"] }) := by
  decide

/-- C19: with a non-negative eviction timeout and a non-decreasing clock, an
evaluation in which the node has no stored ready condition, or its stored status
differs from the fresh one, deletes no pod whatever the new status: the only call
`DoCheck` makes is the health check and the store is as before. -/
theorem DoCheck_fresh_no_eviction (s : NodeController) (b : Behaviour) (node : Node)
    (w : World) (htimeout : 0 ≤ s.podEvictionTimeout) (hmono : Monotone b.clock)
    (hfresh : getCondition node NodeReady = none ∨
      ∃ old, getCondition node NodeReady = some old ∧
        old.Status ≠ (checkNodeReady b node w).1.Status) :
    (DoCheck s b node w).2.trace = w.trace ++ [Call.HealthCheck node.Name] ∧
    (DoCheck s b node w).2.pods = w.pods ∧
    (DoCheck s b node w).2.nodes = w.nodes ∧
    (DoCheck s b node w).2.trace.count Call.PodsList = w.trace.count Call.PodsList := by
  obtain ⟨hn, hp, htr, hlp, -, -⟩ := newReadyCondition_frame b node w
  have hlt : (newReadyCondition b node w).1.LastTransitionTime = b.clock (w.ticks + 1) := by
    rcases hfresh with h | ⟨old, h, hs⟩
    · rw [newReadyCondition_first b node w h]
    · rw [newReadyCondition_changed b node w old h hs]
  have hle : b.clock w.ticks ≤ b.clock (w.ticks + 1) := hmono (Nat.le_succ _)
  have hno : ¬ ((newReadyCondition b node w).1.LastProbeTime >
      (newReadyCondition b node w).1.LastTransitionTime + s.podEvictionTimeout) := by
    rw [hlp, hlt]
    intro h
    have h1 : b.clock (w.ticks + 1) + s.podEvictionTimeout < b.clock w.ticks := h
    linarith
  have hw : (DoCheck s b node w).2 = (newReadyCondition b node w).2 := by
    unfold DoCheck
    by_cases h1 : (newReadyCondition b node w).1.Status ≠ ConditionStatus.ConditionFull
    · simp [h1, hno]
    · simp [h1]
  rw [hw, htr]
  exact ⟨rfl, hp, hn, by simp⟩

theorem DoCheck_fresh_no_eviction_witness :
    (0 : Int) ≤ (staticController 0).podEvictionTimeout ∧
    Monotone failing.clock ∧
    (DoCheck (staticController 0) failing
      (nodeWith "n1" [storedCondition ConditionStatus.ConditionFull (-3) (-5)])
      (worldOf ["n1"] [("p", "n1")])).2.trace = [Call.HealthCheck "n1"] ∧
    (DoCheck (staticController 0) failing
      (nodeWith "n1" [storedCondition ConditionStatus.ConditionFull (-3) (-5)])
      (worldOf ["n1"] [("p", "n1")])).2.pods = (worldOf ["n1"] [("p", "n1")]).pods :=
  have h := DoCheck_fresh_no_eviction (staticController 0) failing
    (nodeWith "n1" [storedCondition ConditionStatus.ConditionFull (-3) (-5)])
    (worldOf ["n1"] [("p", "n1")]) (by decide) (fun a c hac => Int.ofNat_le.mpr hac)
    (Or.inr ⟨storedCondition ConditionStatus.ConditionFull (-3) (-5), by decide, by decide⟩)
  ⟨by decide, fun a c hac => Int.ofNat_le.mpr hac, h.1, h.2.1⟩

/-! ## Facts about repeated names -/

theorem short_of_repeated (reg names : List String) (hnd : reg.Nodup)
    (hsub : ∀ m ∈ reg, m ∈ names) (hrep : ¬ names.Nodup) : reg.length ≠ names.length := by
  intro hlen
  have hperm : List.Perm reg names :=
    (List.subperm_of_subset hnd hsub).perm_of_length_le (by rw [hlen])
  exact hrep (hperm.nodup_iff.mp hnd)

theorem insert_nodup (reg : StringSet) (x : String) (names : List String)
    (hnd : reg.Nodup) (hsub : ∀ m ∈ reg, m ∈ names) (hx : x ∈ names) :
    (StringSet.Insert reg x).Nodup ∧ ∀ m ∈ StringSet.Insert reg x, m ∈ names := by
  unfold StringSet.Insert
  by_cases h : x ∈ reg
  · rw [if_pos h]; exact ⟨hnd, hsub⟩
  · rw [if_neg h]
    refine ⟨?_, ?_⟩
    · rw [List.nodup_append]
      refine ⟨hnd, List.nodup_singleton _, ?_⟩
      intro a ha hb
      rw [List.mem_singleton] at hb
      exact h (hb ▸ ha)
    · intro m hm
      rcases List.mem_append.mp hm with hm | hm
      · exact hsub m hm
      · rw [List.mem_singleton.mp hm]; exact hx

/-- One pass over a list in which a name is repeated never completes the
registration, whatever the store answers. -/
theorem registerPass_repeated (b : Behaviour) (names : List String) (hrep : ¬ names.Nodup)
    (l : List Node) :
    ∀ (reg : StringSet) (w : World), reg.Nodup → (∀ m ∈ reg, m ∈ names) →
      (∀ m ∈ l.map Node.Name, m ∈ names) →
      (registerPass b names.length l reg w).1.2 = false ∧
      (registerPass b names.length l reg w).1.1.Nodup ∧
      (∀ m ∈ (registerPass b names.length l reg w).1.1, m ∈ names) := by
  induction l with
  | nil => intro reg w hnd hsub _; exact ⟨rfl, hnd, hsub⟩
  | cons n rest ih =>
    intro reg w hnd hsub hl
    have hn : n.Name ∈ names := hl n.Name (by simp)
    have hrest : ∀ m ∈ rest.map Node.Name, m ∈ names := by
      intro m hm
      exact hl m (by rw [List.map_cons]; exact List.mem_cons_of_mem _ hm)
    rw [registerPass_cons]
    by_cases hmem : n.Name ∈ reg
    · rw [if_pos hmem]; exact ih reg w hnd hsub hrest
    · rw [if_neg hmem]
      have hreg1 : (match b.createErr n w with
          | none => StringSet.Insert reg n.Name
          | some e => if IsAlreadyExists e then StringSet.Insert reg n.Name else reg).Nodup ∧
          ∀ m ∈ (match b.createErr n w with
            | none => StringSet.Insert reg n.Name
            | some e => if IsAlreadyExists e then StringSet.Insert reg n.Name else reg),
            m ∈ names := by
        cases b.createErr n w with
        | none => exact insert_nodup reg n.Name names hnd hsub hn
        | some e =>
          by_cases hae : IsAlreadyExists e = true
          · simp only [hae, if_true]; exact insert_nodup reg n.Name names hnd hsub hn
          · simp only [hae, Bool.false_eq_true, if_false]; exact ⟨hnd, hsub⟩
      have hne := short_of_repeated _ names hreg1.1 hreg1.2 hrep
      rw [if_neg hne]
      exact ih _ _ hreg1.1 hreg1.2 hrest

theorem registerLoop_repeated (b : Behaviour) (items : List Node) (d : Duration)
    (hrep : ¬ (items.map Node.Name).Nodup) (k : Nat) :
    ∀ (reg : StringSet) (w : World), reg.Nodup → (∀ m ∈ reg, m ∈ items.map Node.Name) →
      (registerLoop b items d k reg w).1 = some Err.ErrRegistration := by
  have hlen : (items.map Node.Name).length = items.length := List.length_map _ _
  induction k with
  | zero =>
    intro reg w hnd hsub
    have hne : StringSet.Len reg ≠ items.length := by
      rw [← hlen]; exact short_of_repeated reg _ hnd hsub hrep
    rw [registerLoop, if_pos hne]
  | succ k ih =>
    intro reg w hnd hsub
    obtain ⟨h1, h2, h3⟩ := registerPass_repeated b (items.map Node.Name) hrep items reg w
      hnd hsub (fun m hm => hm)
    rw [hlen] at h1 h2 h3
    rw [registerLoop]
    simp only [h1, Bool.false_eq_true, if_false]
    exact ih _ _ h2 h3

/-- C18: when two items of the node list have names that are equal after
lowercasing, `RegisterNodes` returns `ErrRegistration`, for every `retryCount` and
whatever the store answers. -/
theorem RegisterNodes_repeated_name (b : Behaviour) (nodes : NodeList) (n : Int)
    (d : Duration) (w : World)
    (hrep : ∃ i j : Fin nodes.Items.length, i ≠ j ∧
      ToLower (nodes.Items.get i).Name = ToLower (nodes.Items.get j).Name) :
    (RegisterNodes b nodes n d w).1 = some Err.ErrRegistration := by
  have hnot : ¬ ((canonicalizeName nodes).Items.map Node.Name).Nodup := by
    rw [canonicalizeName_names]
    intro hnd
    obtain ⟨i, j, hij, heq⟩ := hrep
    have hitems : nodes.Items.Nodup := hnd.of_map
    have hget : nodes.Items.get i = nodes.Items.get j :=
      List.inj_on_of_nodup_map hnd (List.get_mem _ _ _) (List.get_mem _ _ _) heq
    exact hij ((List.nodup_iff_injective_get.mp hitems) hget)
  unfold RegisterNodes
  exact registerLoop_repeated b _ d hnot _ [] w List.nodup_nil (fun m hm => by cases hm)

theorem RegisterNodes_repeated_name_witness :
    (∃ i j : Fin (nodeList ["Node-A", "node-a"]).Items.length, i ≠ j ∧
      ToLower ((nodeList ["Node-A", "node-a"]).Items.get i).Name =
        ToLower ((nodeList ["Node-A", "node-a"]).Items.get j).Name) ∧
    (RegisterNodes calm (nodeList ["Node-A", "node-a"]) 3 0 emptyWorld).1 =
      some Err.ErrRegistration :=
  ⟨⟨⟨0, by decide⟩, ⟨1, by decide⟩, by decide, by decide⟩,
   RegisterNodes_repeated_name calm (nodeList ["Node-A", "node-a"]) 3 0 emptyWorld
    ⟨⟨0, by decide⟩, ⟨1, by decide⟩, by decide, by decide⟩⟩

/-! ## Facts about the status sync -/

theorem Quiet.refl (w : World) : Quiet w w :=
  ⟨rfl, [], by simp, by simp⟩

theorem Quiet.trans {w w1 w2 : World} (h1 : Quiet w w1) (h2 : Quiet w1 w2) : Quiet w w2 := by
  obtain ⟨n1, t1, e1, q1⟩ := h1
  obtain ⟨n2, t2, e2, q2⟩ := h2
  refine ⟨n2.trans n1, t1 ++ t2, by rw [e2, e1, List.append_assoc], ?_⟩
  intro c hc
  rcases List.mem_append.mp hc with h | h
  · exact q1 c h
  · exact q2 c h

theorem Quiet.filter {w w1 : World} (h : Quiet w w1) :
    w1.trace.filter isNodeMutation = w.trace.filter isNodeMutation := by
  obtain ⟨-, tr, e, q⟩ := h
  have : tr.filter isNodeMutation = [] := by
    rw [List.filter_eq_nil_iff]
    intro c hc
    simp [q c hc]
  rw [e, List.filter_append, this, List.append_nil]

theorem quiet_log (w : World) (c : Call) (hc : isNodeMutation c = false) :
    Quiet w (w.log c) :=
  ⟨rfl, [c], rfl, by intro x hx; rw [List.mem_singleton.mp hx]; exact hc⟩

theorem quiet_deletePods (b : Behaviour) (nodeID : String) (w : World) :
    Quiet w (deletePods b nodeID w).2 := by
  refine ⟨(deletePods_nodes b nodeID w).1, ?_⟩
  unfold deletePods PodsList
  cases h : b.listPodsErr w with
  | some e =>
    exact ⟨[Call.PodsList], rfl, by intro x hx; rw [List.mem_singleton.mp hx]; rfl⟩
  | none =>
    refine ⟨Call.PodsList :: (w.pods.filter (fun p => p.Status.Host = nodeID)).map
      (fun p => Call.PodsDelete p.Name), ?_, ?_⟩
    · show (deletePodsLoop b nodeID w.pods (w.log Call.PodsList)).trace = _
      rw [deletePodsLoop_trace]
      simp [World.log]
    · intro x hx
      rcases List.mem_cons.mp hx with h | h
      · rw [h]; rfl
      · obtain ⟨p, _, rfl⟩ := List.mem_map.mp h
        rfl

theorem quiet_DoCheck (s : NodeController) (b : Behaviour) (node : Node) (w : World) :
    Quiet w (DoCheck s b node w).2 := by
  obtain ⟨hn, -, ht, -, -, -⟩ := newReadyCondition_frame b node w
  have h0 : Quiet w (newReadyCondition b node w).2 :=
    ⟨hn, [Call.HealthCheck node.Name], ht,
      by intro x hx; rw [List.mem_singleton.mp hx]; rfl⟩
  unfold DoCheck
  by_cases h1 : (newReadyCondition b node w).1.Status ≠ ConditionStatus.ConditionFull
  · by_cases h2 : (newReadyCondition b node w).1.LastProbeTime >
        (newReadyCondition b node w).1.LastTransitionTime + s.podEvictionTimeout
    · rw [if_pos h1, if_pos h2]
      exact h0.trans (quiet_deletePods b node.Name _)
    · rw [if_pos h1, if_neg h2]
      exact h0
  · rw [if_neg h1]
    exact h0

theorem doChecksLoop_quiet (s : NodeController) (b : Behaviour) (l : List Node) :
    ∀ w : World, Quiet w (doChecksLoop s b l w).2 ∧
      (doChecksLoop s b l w).1.map Node.Name = l.map Node.Name := by
  induction l with
  | nil => intro w; exact ⟨Quiet.refl w, rfl⟩
  | cons n rest ih =>
    intro w
    obtain ⟨h1, h2⟩ := ih (DoCheck s b n w).2
    rw [doChecksLoop]
    exact ⟨(quiet_DoCheck s b n w).trans h1, by simp [h2, Node.withConditions]⟩

theorem populateCloudLoop_quiet (b : Behaviour) (l : List Node) :
    ∀ w : World, Quiet w (populateCloudLoop b l w).2 ∧
      (populateCloudLoop b l w).1.map Node.Name = l.map Node.Name := by
  induction l with
  | nil => intro w; exact ⟨Quiet.refl w, rfl⟩
  | cons n rest ih =>
    intro w
    obtain ⟨h1, h2⟩ := ih ((w.log (Call.IPAddress n.Name)).log (Call.InstanceID n.Name))
    rw [populateCloudLoop]
    refine ⟨?_, ?_⟩
    · exact ((quiet_log w (Call.IPAddress n.Name) rfl).trans
        (quiet_log _ (Call.InstanceID n.Name) rfl)).trans h1
    · simp only [IPAddress, InstanceID, List.map_cons, h2]
      congr 1
      cases b.ipAddress n.Name w <;>
        cases b.instanceID n.Name (w.log (Call.IPAddress n.Name)) <;> rfl

theorem populateStaticLoop_quiet (b : Behaviour) (l : List Node) :
    ∀ w : World, Quiet w (populateStaticLoop b l w).2 ∧
      (populateStaticLoop b l w).1.map Node.Name = l.map Node.Name := by
  induction l with
  | nil => intro w; exact ⟨Quiet.refl w, rfl⟩
  | cons n rest ih =>
    intro w
    rw [populateStaticLoop]
    by_cases hp : b.parseIP n.Name = true
    · obtain ⟨h1, h2⟩ := ih w
      simp only [hp, if_true]
      exact ⟨h1, by simp [h2, Node.withHostIP]⟩
    · obtain ⟨h1, h2⟩ := ih (w.log (Call.LookupIP n.Name))
      simp only [hp, Bool.false_eq_true, if_false]
      refine ⟨(quiet_log w (Call.LookupIP n.Name) rfl).trans h1, ?_⟩
      simp only [LookupIP, List.map_cons, h2]
      congr 1
      rcases b.lookupIP n.Name w with e | addrs
      · rfl
      · cases addrs <;> rfl

theorem PopulateIPs_quiet (s : NodeController) (b : Behaviour) (nodes : NodeList) (w : World) :
    Quiet w (PopulateIPs s b nodes w).2 ∧
      (PopulateIPs s b nodes w).1.1.Items.map Node.Name = nodes.Items.map Node.Name := by
  unfold PopulateIPs
  by_cases hc : isRunningCloudProvider s = true
  · simp only [hc, if_true]
    by_cases hi : (Instances b w).1 = true
    · simp only [hi, not_true_eq_false, if_false]
      obtain ⟨h1, h2⟩ := populateCloudLoop_quiet b nodes.Items (Instances b w).2
      exact ⟨(quiet_log w Call.Instances rfl).trans h1, h2⟩
    · simp only [hi, not_false_eq_true, if_true]
      exact ⟨quiet_log w Call.Instances rfl, rfl⟩
  · simp only [hc, Bool.false_eq_true, if_false]
    exact populateStaticLoop_quiet b nodes.Items w

theorem updateLoop_effect (b : Behaviour) (l : List Node) :
    ∀ w : World, (updateLoop b l w).nodeNames = w.nodeNames ∧
      (updateLoop b l w).pods = w.pods ∧
      (updateLoop b l w).trace.filter isNodeMutation =
        w.trace.filter isNodeMutation ++ (l.map Node.Name).map Call.NodesUpdate := by
  induction l with
  | nil => intro w; simp [updateLoop]
  | cons n rest ih =>
    intro w
    obtain ⟨h1, h2, h3⟩ := ih (NodesUpdate b n w).2
    have hu : (NodesUpdate b n w).2.nodeNames = w.nodeNames ∧
        (NodesUpdate b n w).2.pods = w.pods ∧
        (NodesUpdate b n w).2.trace = w.trace ++ [Call.NodesUpdate n.Name] := by
      unfold NodesUpdate
      cases b.updateErr n w with
      | some e => exact ⟨rfl, rfl, rfl⟩
      | none =>
        refine ⟨?_, rfl, rfl⟩
        show List.map Node.Name (w.nodes.map (fun x => if x.Name = n.Name then n else x)) = _
        rw [List.map_map]
        apply List.map_congr_left
        intro x _
        show (if x.Name = n.Name then n else x).Name = x.Name
        split_ifs with hx
        · exact hx.symm
        · rfl
    rw [updateLoop]
    refine ⟨by rw [h1, hu.1], by rw [h2, hu.2.1], ?_⟩
    rw [h3, hu.2.2]
    simp [isNodeMutation]

/-- C13: when listing the nodes succeeds and `PopulateIPs` returns no error,
`SyncNodeStatus` returns nil and, whatever the probes and the updates answer, calls
Update once for each listed node, in order, and calls neither Create nor Delete on
a node; the names of the nodes in the store are as before. -/
theorem SyncNodeStatus_updates (s : NodeController) (b : Behaviour) (w : World)
    (hlist : b.listNodesErr w = none)
    (hres : (PopulateIPs s b (DoChecks s b { Items := w.nodes } (w.log Call.NodesList)).1
      (DoChecks s b { Items := w.nodes } (w.log Call.NodesList)).2).1.2 = none) :
    (SyncNodeStatus s b w).1 = none ∧
    (SyncNodeStatus s b w).2.trace.filter isNodeMutation =
      w.trace.filter isNodeMutation ++ w.nodeNames.map Call.NodesUpdate ∧
    (SyncNodeStatus s b w).2.nodeNames = w.nodeNames := by
  have hl : NodesList b w = (.ok { Items := w.nodes }, w.log Call.NodesList) := by
    unfold NodesList; rw [hlist]
  obtain ⟨q1, n1⟩ := doChecksLoop_quiet s b w.nodes (w.log Call.NodesList)
  have q0 : Quiet w (w.log Call.NodesList) := quiet_log w Call.NodesList rfl
  obtain ⟨q2, n2⟩ := PopulateIPs_quiet s b
    (DoChecks s b { Items := w.nodes } (w.log Call.NodesList)).1
    (DoChecks s b { Items := w.nodes } (w.log Call.NodesList)).2
  have qall : Quiet w (PopulateIPs s b
      (DoChecks s b { Items := w.nodes } (w.log Call.NodesList)).1
      (DoChecks s b { Items := w.nodes } (w.log Call.NodesList)).2).2 :=
    (q0.trans q1).trans q2
  have hnames : (PopulateIPs s b
      (DoChecks s b { Items := w.nodes } (w.log Call.NodesList)).1
      (DoChecks s b { Items := w.nodes } (w.log Call.NodesList)).2).1.1.Items.map Node.Name =
      w.nodeNames := by
    rw [n2]; exact n1
  have hrun : SyncNodeStatus s b w = (none, updateLoop b
      (PopulateIPs s b (DoChecks s b { Items := w.nodes } (w.log Call.NodesList)).1
        (DoChecks s b { Items := w.nodes } (w.log Call.NodesList)).2).1.1.Items
      (PopulateIPs s b (DoChecks s b { Items := w.nodes } (w.log Call.NodesList)).1
        (DoChecks s b { Items := w.nodes } (w.log Call.NodesList)).2).2) := by
    unfold SyncNodeStatus
    simp only [hl, hres]
  obtain ⟨u1, -, u3⟩ := updateLoop_effect b
    (PopulateIPs s b (DoChecks s b { Items := w.nodes } (w.log Call.NodesList)).1
      (DoChecks s b { Items := w.nodes } (w.log Call.NodesList)).2).1.1.Items
    (PopulateIPs s b (DoChecks s b { Items := w.nodes } (w.log Call.NodesList)).1
      (DoChecks s b { Items := w.nodes } (w.log Call.NodesList)).2).2
  rw [hrun]
  refine ⟨rfl, ?_, ?_⟩
  · dsimp only
    rw [u3, qall.filter, hnames]
  · dsimp only
    rw [u1]
    unfold World.nodeNames
    rw [qall.1]

theorem SyncNodeStatus_updates_witness :
    (flakyUpdate "a").listNodesErr (worldOf ["a", "b"] [("p", "a")]) = none ∧
    (SyncNodeStatus (staticController 100) (flakyUpdate "a")
      (worldOf ["a", "b"] [("p", "a")])).1 = none ∧
    (SyncNodeStatus (staticController 100) (flakyUpdate "a")
      (worldOf ["a", "b"] [("p", "a")])).2.trace.filter isNodeMutation =
      [Call.NodesUpdate "a", Call.NodesUpdate "b"] ∧
    (SyncNodeStatus (staticController 100) (flakyUpdate "a")
      (worldOf ["a", "b"] [("p", "a")])).2.nodeNames = ["a", "b"] :=
  have h := SyncNodeStatus_updates (staticController 100) (flakyUpdate "a")
    (worldOf ["a", "b"] [("p", "a")]) rfl (by decide)
  ⟨rfl, h.1, h.2.1.trans (by decide), h.2.2.trans (by decide)⟩

/-! ## Facts about the bootstrap -/

/-- C20: the controller runs with a cloud provider and syncs the node list, the
provider lists `a` and its capacity query for `a` fails; the node list the bootstrap
of `Run` holds when it reaches `DoChecks` is nil, and `Run` ends in a nil
dereference. -/
theorem Run_dereferences_nil :
    initialNodes cloudController (brokenResources ["a"] "a") true emptyWorld =
      .done (none, World.mk [] [] 0
        [Call.Instances, Call.InstancesList ".*", Call.GetNodeResources "a"]) ∧
    Run cloudController (brokenResources ["a"] "a") 10 true emptyWorld =
      .nilDereference := by
  decide

/-- C17: the provider lists the single instance `Node-A`, the store is empty and
answers as a store does (Create succeeds for an absent name, fails with
already-exists for a present one).  `RegisterNodes` returns nil for the node list
`CloudNodes` built and leaves the record `node-a`; `SyncCloud` on that store and the
same instance list then creates `Node-A`, deletes `node-a` and lists the pods to
delete those of `node-a`. -/
theorem SyncCloud_after_RegisterNodes :
    (CloudNodes cloudController (conflictingCloud ["Node-A"]) emptyWorld).1 =
      (some (nodeList ["Node-A"]), none) ∧
    (RegisterNodes (conflictingCloud ["Node-A"]) (nodeList ["Node-A"]) 1 0 emptyWorld).1 =
      none ∧
    (RegisterNodes (conflictingCloud ["Node-A"]) (nodeList ["Node-A"]) 1 0
      emptyWorld).2.nodeNames = ["node-a"] ∧
    (SyncCloud cloudController (conflictingCloud ["Node-A"])
      (RegisterNodes (conflictingCloud ["Node-A"]) (nodeList ["Node-A"]) 1 0
        emptyWorld).2).2.trace =
      [Call.NodesCreate "node-a", Call.Instances, Call.InstancesList ".*",
        Call.GetNodeResources "Node-A", Call.NodesList, Call.NodesCreate "Node-A",
        Call.NodesDelete "node-a", Call.PodsList] := by
  decide

end controller

/-! ## Facts about the exec admission plugin -/

namespace denyhostipc

theorem usesHostIpc_iff (l : List Container) :
    usesHostIpc l = true ↔
      ∃ c ∈ l, ∃ sc, c.SecurityContext = some sc ∧ sc.UseHostIpc = some true := by
  induction l with
  | nil => simp [usesHostIpc]
  | cons c rest ih =>
    obtain ⟨sc⟩ := c
    cases sc with
    | none => simp [usesHostIpc, ih]
    | some sc0 =>
      obtain ⟨u⟩ := sc0
      cases u with
      | none => simp [usesHostIpc, ih]
      | some v => cases v <;> simp [usesHostIpc, ih]

/-- C16: on a connect request `Admit` returns nil without fetching a pod when the
resource path is not `pods/exec`; when it is, `Admit` fetches the named pod once and
returns a Forbidden error exactly when the fetch fails or some container of the pod
has a non-nil security context whose `UseHostIpc` is non-nil and true, and nil
otherwise. -/
theorem Admit_connect (get : PodGetter) (ns : String) (r : ConnectRequest)
    (fetched : List (String × String)) :
    (r.ResourcePath ≠ "pods/exec" →
      Admit get { Object := .connect r, Namespace := ns } fetched = (none, fetched)) ∧
    (r.ResourcePath = "pods/exec" →
      (Admit get { Object := .connect r, Namespace := ns } fetched).2 =
        fetched ++ [(ns, r.Name)] ∧
      ((∃ detail, (Admit get { Object := .connect r, Namespace := ns } fetched).1 =
          some (.Forbidden detail)) ↔
        ((∃ e, get ns r.Name = .error e) ∨
          ∃ pod, get ns r.Name = .ok pod ∧ ∃ c ∈ pod.Spec.Containers, ∃ sc,
            c.SecurityContext = some sc ∧ sc.UseHostIpc = some true)) ∧
      ((¬ ∃ detail, (Admit get { Object := .connect r, Namespace := ns } fetched).1 =
          some (.Forbidden detail)) →
        (Admit get { Object := .connect r, Namespace := ns } fetched).1 = none)) := by
  refine ⟨?_, ?_⟩
  · intro h
    simp [Admit, h]
  · intro h
    cases hg : get ns r.Name with
    | error e =>
      refine ⟨by simp [Admit, h, hg], ?_, ?_⟩
      · simp [Admit, h, hg]
      · simp [Admit, h, hg]
    | ok pod =>
      by_cases hu : isUsingHostIpc pod = true
      · have hex := (usesHostIpc_iff pod.Spec.Containers).mp hu
        refine ⟨by simp [Admit, h, hg, hu], ?_, ?_⟩
        · simp only [Admit, h, hg, hu]
          simp only [ne_eq, not_true_eq_false, if_false, if_true]
          constructor
          · intro _
            exact Or.inr ⟨pod, rfl, hex⟩
          · intro _
            exact ⟨_, rfl⟩
        · simp [Admit, h, hg, hu]
      · have hno : ¬ ∃ c ∈ pod.Spec.Containers, ∃ sc,
            c.SecurityContext = some sc ∧ sc.UseHostIpc = some true := by
          intro hex
          exact hu ((usesHostIpc_iff pod.Spec.Containers).mpr hex)
        refine ⟨by simp [Admit, h, hg, hu], ?_, ?_⟩
        · simp only [Admit, h, hg, hu]
          simp only [ne_eq, not_true_eq_false, if_false, Bool.false_eq_true]
          constructor
          · rintro ⟨d, hd⟩
            cases hd
          · rintro (⟨e, he⟩ | ⟨p, hp, hex⟩)
            · cases he
            · cases hp
              exact absurd hex hno
        · simp [Admit, h, hg, hu]

end denyhostipc
